import Mathlib

/-!
# Verification of the webReaper aggregation / filtering / caching / scoring core

This file gives a shallow embedding, in Lean 4, of the core pipeline of the
webReaper reconnaissance tool (Python), and proves or refutes the frozen
claims about it.

Embedded components and their sources:
* `webreaper/scoring.py` — the ReapScore engine (`compute_reapscore`,
  `_build_context`, the four subscore functions, `compute_confidence`,
  `clamp`, scoring extensions);
* `webreaper/cli.py` — the scope filter (`_filter_url`, `_host_in_scope`)
  and the aggregation loops of `_reap_impl`;
* `webreaper/storage/raw_store.py` — the raw cache store (`save_raw_data`,
  `load_raw_data`, `should_harvest`) together with `webreaper/utils.py`
  (`safe_name`);
* the parts of the Python standard library these functions call:
  `urllib.parse` (`urlparse`, `urlsplit`, `parse_qs`, `unquote`, the
  `hostname` property) and `json` (`dumps` with `indent=2`, `loads`).

Modelling conventions:
* Python `str` is Lean `String` (helpers work on `List Char`);
* Python `int` is `Int` (unbounded, as in Python), `float` is `ℚ`
  (CPython uses binary doubles; every constant in the scoring code is a
  short decimal and every claim is insensitive to the difference, noted
  where relevant);
* Python `None` is `Option.none`; a raised exception is `Except.error`;
* Python `set`/`dict` are lists with explicit dedup / lookup functions,
  faithful to the insertion-order and last-key-wins semantics of CPython;
* `str.lower` is modelled on ASCII letters only (the code only compares
  hostnames and ASCII keyword constants, and every claim is stated through
  the same modelled function on both sides);
* behaviour is modelled on CPython 3.11 `urllib.parse` / `json`.
-/

namespace WebReaper

/-! ## Python string primitives -/

/-- Model of Python `str.lower` on a single character (ASCII range; see the
module conventions). -/
def pyLowerChar (c : Char) : Char :=
  if 65 ≤ c.toNat ∧ c.toNat ≤ 90 then Char.ofNat (c.toNat + 32) else c

/-- Model of Python `str.lower`. -/
def pyLower (s : String) : String := ⟨s.data.map pyLowerChar⟩

/-- `needle` occurs as a contiguous substring of the character list
(Python `needle in haystack` for strings). -/
def listContainsSub (needle haystack : List Char) : Bool :=
  haystack.tails.any (fun t => needle.isPrefixOf t)

/-- Model of Python `needle in haystack` on strings. -/
def strContains (haystack needle : String) : Bool :=
  listContainsSub needle.data haystack.data

/-- Model of Python `s.endswith(suffix)`. -/
def strEndsWith (s suf : String) : Bool :=
  suf.data.isSuffixOf s.data

/-- Model of Python `s.startswith(pre)`. -/
def strStartsWith (s pre : String) : Bool :=
  pre.data.isPrefixOf s.data

/-- Split a character list at every occurrence of `sep`, keeping empty
pieces (Python `str.split(sep)` for a one-character separator:
`"a//b".split("/") == ["a","","b"]`, `"".split("/") == [""]`). -/
def splitOnChar (sep : Char) : List Char → List (List Char)
  | [] => [[]]
  | c :: rest =>
    let r := splitOnChar sep rest
    if c = sep then [] :: r
    else match r with
      | [] => [[c]]
      | piece :: more => (c :: piece) :: more

/-- Characters strictly before the first occurrence of `sep`
(whole list when absent) — the first component of Python
`s.partition(sep)` / `s.split(sep, 1)`. -/
def beforeFirst (sep : Char) (cs : List Char) : List Char :=
  cs.takeWhile (fun c => c ≠ sep)

/-- Characters strictly after the first occurrence of `sep`
(`none` when absent). -/
def afterFirst (sep : Char) : List Char → Option (List Char)
  | [] => none
  | c :: rest => if c = sep then some rest else afterFirst sep rest

/-- Characters strictly after the last occurrence of `sep` (whole list when
absent) — the last component of Python `s.rpartition(sep)` with the
`not found` convention of its call sites, and of `s.rsplit(sep, 1)[-1]`. -/
def afterLast (sep : Char) (cs : List Char) : List Char :=
  ((cs.reverse).takeWhile (fun c => c ≠ sep)).reverse

/-- Index of the first occurrence of `sep` (Python `s.find(sep)`,
with `none` for `-1`). -/
def findChar (sep : Char) : List Char → Option Nat
  | [] => none
  | c :: rest =>
    if c = sep then some 0
    else (findChar sep rest).map (· + 1)

/-- Python set semantics for a list of strings: membership-relevant dedup
keeping first occurrences (`List.eraseDups`). -/
def pySet (l : List String) : List String := l.eraseDups

/-- Equality of modelled Python results (`Except` models raising) is
decidable, so that concrete runs can be checked by `decide`. -/
instance exceptDecEq {ε α : Type} [DecidableEq ε] [DecidableEq α] :
    DecidableEq (Except ε α)
  | .error e, .error f =>
    if h : e = f then .isTrue (by rw [h]) else .isFalse (by simp [h])
  | .error _, .ok _ => .isFalse (by simp)
  | .ok _, .error _ => .isFalse (by simp)
  | .ok a, .ok b =>
    if h : a = b then .isTrue (by rw [h]) else .isFalse (by simp [h])

/-! ## Model of `urllib.parse` (CPython 3.11)

`urlsplit` strips leading C0-control/space characters, removes every tab,
carriage return and newline, splits off a scheme made of scheme characters,
splits the network location after `//`, validates bracketed (IPv6) hosts —
raising `ValueError` for unbalanced or invalid brackets — and splits off
fragment and query.  `urlparse` additionally splits `;parameters` from the
last path segment. -/

/-- Scheme characters: ASCII letters, digits, `+`, `-`, `.`. -/
def isSchemeChar (c : Char) : Bool :=
  c.isAlpha ∨ c.isDigit ∨ c = '+' ∨ c = '-' ∨ c = '.'

/-- WHATWG C0 control or space (code point ≤ 0x20). -/
def isC0OrSpace (c : Char) : Bool := c.toNat ≤ 32

/-- A hexadecimal digit. -/
def isHexDigit (c : Char) : Bool :=
  c.isDigit ∨ ('a' ≤ c ∧ c ≤ 'f') ∨ ('A' ≤ c ∧ c ≤ 'F')

/-- Numeric value of a hexadecimal digit. -/
def hexVal (c : Char) : Nat :=
  if c.isDigit then c.toNat - 48
  else if 'a' ≤ c ∧ c ≤ 'f' then c.toNat - 87
  else if 'A' ≤ c ∧ c ≤ 'F' then c.toNat - 55
  else 0

/-- One group of an IPv6 address: 1–4 hex digits. -/
def validV6Group (g : List Char) : Bool :=
  g.length ≥ 1 ∧ g.length ≤ 4 ∧ g.all isHexDigit

/-- Decimal byte 0–255 without leading zeros (an IPv4 octet as accepted by
`ipaddress`). -/
def validV4Octet (o : List Char) : Bool :=
  o.length ≥ 1 ∧ o.length ≤ 3 ∧ o.all Char.isDigit ∧
    (o.length = 1 ∨ o.headD '0' ≠ '0') ∧
    (o.foldl (fun n c => 10 * n + (c.toNat - 48)) 0) ≤ 255

/-- A dotted-quad IPv4 address. -/
def validV4 (cs : List Char) : Bool :=
  match splitOnChar '.' cs with
  | [a, b, c, d] => validV4Octet a ∧ validV4Octet b ∧ validV4Octet c ∧ validV4Octet d
  | _ => false

/-- Validity of an IPv6 address literal, as accepted by
`ipaddress.ip_address`: groups of 1–4 hex digits separated by `:`, at most
one `::` elision, optionally a trailing dotted-quad IPv4 part, eight
16-bit pieces in total.  (Zone identifiers `%zone` are not modelled; no
claim depends on which bracketed hosts are accepted, only on rejection
being a raised `ValueError`.) -/
def validV6 (cs : List Char) : Bool :=
  if listContainsSub [':', ':'] cs then
    let left := beforeDoubleColon cs
    let right := afterDoubleColon cs
    if listContainsSub [':', ':'] right then false
    else
      let leftParts := if left = [] then [] else splitOnChar ':' left
      let rightParts := if right = [] then [] else splitOnChar ':' right
      match pieceCount leftParts, pieceCount rightParts with
      | some a, some b => a + b ≤ 7
      | _, _ => false
  else pieceCount (splitOnChar ':' cs) = some 8
where
  /-- 16-bit pieces contributed by a `:`-separated part list; a trailing
  dotted-quad IPv4 part counts for two pieces; `none` if some part is
  invalid. -/
  pieceCount (l : List (List Char)) : Option Nat :=
    (l.foldr (fun p acc =>
      match acc with
      | none => none
      | some (n, isLast) =>
        if isLast ∧ validV4 p then some (n + 2, false)
        else if validV6Group p then some (n + 1, false)
        else none) (some ((0 : Nat), true))).map (·.1)
  /-- Characters before the first `::`. -/
  beforeDoubleColon : List Char → List Char
    | [] => []
    | c :: rest =>
      if c = ':' ∧ rest.headD ' ' = ':' then []
      else c :: beforeDoubleColon rest
  /-- Characters after the first `::`. -/
  afterDoubleColon : List Char → List Char
    | [] => []
    | c :: rest =>
      if c = ':' ∧ rest.headD ' ' = ':' then rest.tail
      else afterDoubleColon rest

/-- Model of `urllib.parse._check_bracketed_host` (CPython 3.11): a
bracketed host that starts with `v` must match `v<hex>+\.<nonempty>`
(IPvFuture), otherwise it must be a valid IPv6 address literal
(`ipaddress.ip_address` rejects everything else, and an IPv4 address in
brackets is also rejected). -/
def checkBracketedHost (cs : List Char) : Except String Unit :=
  if cs.headD ' ' = 'v' then
    let afterV := cs.tail
    let hex := afterV.takeWhile isHexDigit
    let rest := afterV.dropWhile isHexDigit
    if hex ≠ [] ∧ rest.headD ' ' = '.' ∧ rest.tail ≠ [] then .ok ()
    else .error "IPvFuture address is invalid"
  else if validV6 cs then .ok ()
  else .error "does not appear to be an IPv4 or IPv6 address"

/-- The result quintuple of `urllib.parse.urlsplit`. -/
structure SplitResult where
  scheme : String
  netloc : String
  path : String
  query : String
  fragment : String
deriving Repr, DecidableEq

/-- The result sextuple of `urllib.parse.urlparse`. -/
structure ParseResult where
  scheme : String
  netloc : String
  path : String
  params : String
  query : String
  fragment : String
deriving Repr, DecidableEq

/-- Model of `urllib.parse.urlsplit` (CPython 3.11).  `Except.error`
models a raised `ValueError`.  The `_checknetloc` NFKC check is modelled
as accepting: it rejects only non-ASCII compatibility characters in the
netloc, which no claim exercises. -/
def urlsplit (url : String) : Except String SplitResult :=
  let cs := (url.data.dropWhile isC0OrSpace).filter
    (fun c => ¬ (c = '\t' ∨ c = '\r' ∨ c = '\n'))
  let (scheme, rest) :=
    match findChar ':' cs with
    | some i =>
      if 0 < i ∧ (cs.headD ' ').isAlpha ∧ (cs.take i).all isSchemeChar
      then ((cs.take i).map pyLowerChar, cs.drop (i + 1))
      else (([] : List Char), cs)
    | none => (([] : List Char), cs)
  let hasNetloc := rest.take 2 = ['/', '/']
  let netloc :=
    if hasNetloc
    then (rest.drop 2).takeWhile (fun c => ¬ (c = '/' ∨ c = '?' ∨ c = '#'))
    else []
  let rest1 :=
    if hasNetloc
    then (rest.drop 2).dropWhile (fun c => ¬ (c = '/' ∨ c = '?' ∨ c = '#'))
    else rest
  if (netloc.contains '[' ∧ ¬ netloc.contains ']') ∨
     (netloc.contains ']' ∧ ¬ netloc.contains '[') then
    .error "Invalid IPv6 URL"
  else
    let brCheck : Except String Unit :=
      if netloc.contains '[' ∧ netloc.contains ']' then
        checkBracketedHost (beforeFirst ']' ((afterFirst '[' netloc).getD []))
      else .ok ()
    match brCheck with
    | .error e => .error e
    | .ok () =>
      let (rest2, fragment) :=
        if rest1.contains '#'
        then (beforeFirst '#' rest1, (afterFirst '#' rest1).getD [])
        else (rest1, [])
      let (path, query) :=
        if rest2.contains '?'
        then (beforeFirst '?' rest2, (afterFirst '?' rest2).getD [])
        else (rest2, [])
      .ok ⟨⟨scheme⟩, ⟨netloc⟩, ⟨path⟩, ⟨query⟩, ⟨fragment⟩⟩

/-- Model of `urllib.parse._splitparams`: split `;parameters` off the last
path segment. -/
def splitparams (cs : List Char) : List Char × List Char :=
  if cs.contains '/' then
    let seg := afterLast '/' cs
    let pre := cs.take (cs.length - seg.length)
    if seg.contains ';'
    then (pre ++ beforeFirst ';' seg, (afterFirst ';' seg).getD [])
    else (cs, [])
  else (beforeFirst ';' cs, (afterFirst ';' cs).getD [])

/-- Model of `urllib.parse.urlparse` (CPython 3.11). -/
def urlparse (url : String) : Except String ParseResult :=
  match urlsplit url with
  | .error e => .error e
  | .ok r =>
    let pcs := r.path.data
    if pcs.contains ';' then
      let (p, params) := splitparams pcs
      .ok ⟨r.scheme, r.netloc, ⟨p⟩, ⟨params⟩, r.query, r.fragment⟩
    else
      .ok ⟨r.scheme, r.netloc, r.path, "", r.query, r.fragment⟩

/-- Model of the `hostname` property of a parse result combined with the
`p.hostname or ""` idiom of the call sites: the host part of the netloc
(after the last `@`, inside brackets when present, otherwise up to the
first `:`), lowercased; `""` when absent. -/
def pyHostname (netloc : String) : String :=
  let hostinfo := afterLast '@' netloc.data
  let host :=
    if hostinfo.contains '['
    then beforeFirst ']' ((afterFirst '[' hostinfo).getD [])
    else beforeFirst ':' hostinfo
  ⟨host.map pyLowerChar⟩

/-! ## Model of `urllib.parse.parse_qs` (keys only)

The scoring and filtering code only ever uses the keys of the parsed
query.  `parse_qsl(qs, keep_blank_values=True)` splits on `&`, skips empty
pairs, takes the part before the first `=` as the name (the whole pair
when there is no `=`), replaces `+` by space and percent-decodes.
Percent-decoding is modelled byte-wise: a valid `%XX` escape becomes the
character with code `XX`; multi-byte UTF-8 sequences are not reassembled
(no claim depends on decoded characters, only on key identity via the
same function on both sides). -/

/-- Byte-wise model of `urllib.parse.unquote`. -/
def unquoteChars : List Char → List Char
  | [] => []
  | '%' :: h1 :: h2 :: rest =>
    if isHexDigit h1 ∧ isHexDigit h2
    then Char.ofNat (16 * hexVal h1 + hexVal h2) :: unquoteChars rest
    else '%' :: unquoteChars (h1 :: h2 :: rest)
  | c :: rest => c :: unquoteChars rest

/-- The decoded names of the query pairs, in order, with duplicates
(`parse_qsl` with `keep_blank_values=True`, names only). -/
def parseQslNames (query : String) : List String :=
  (splitOnChar '&' query.data).filterMap fun pair =>
    if pair = [] then none
    else some ⟨unquoteChars ((beforeFirst '=' pair).map
      (fun c => if c = '+' then ' ' else c))⟩

/-- The keys of the dict returned by `parse_qs` (decoded names, first
occurrence order, deduplicated). -/
def parseQsKeys (query : String) : List String :=
  pySet (parseQslNames query)

/-! ## The ReapScore engine (`webreaper/scoring.py`) -/

/-- `DEFAULT_WEIGHTS` of `scoring.py` (floats modelled as `ℚ`). -/
def DEFAULT_WEIGHTS : List (String × ℚ) :=
  [("harvest_index", 0.30), ("juice_score", 0.35),
   ("access_signal", 0.20), ("anomaly_signal", 0.15)]

/-- `HIGH_SIGNAL_PARAM_NAMES` of `scoring.py` (a Python set; only
membership is used, so the list order is irrelevant). -/
def HIGH_SIGNAL_PARAM_NAMES : List String :=
  ["id", "uid", "user", "username", "token", "auth", "redirect", "next",
   "url", "uri", "file", "path", "query", "search", "q", "dest",
   "destination", "return", "continue", "callback", "jsonp", "api_key",
   "apikey", "key", "session", "sess"]

/-- `PATH_KEYWORDS` of `scoring.py` (a Python set; only `any` over it is
used, so the list order is irrelevant). -/
def PATH_KEYWORDS : List String :=
  ["admin", "login", "signin", "auth", "sso", "oauth", "api", "graphql",
   "swagger", "openapi", "debug", "internal", "upload", "export",
   "download", "backup", "config", "console", "dashboard", "panel",
   "manage", "settings", "account", "profile"]

/-- `DYNAMIC_EXTS` of `scoring.py` (a Python set; at most one element can
be a suffix of a given path, so the iteration order of `next(...)` is
irrelevant). -/
def DYNAMIC_EXTS : List String :=
  [".php", ".aspx", ".asp", ".jsp", ".do", ".action"]

/-- Python `min` on two integers (ties keep the first argument). -/
def pyMinI (a b : Int) : Int := if b < a then b else a

/-- Python `max` on two integers (ties keep the first argument). -/
def pyMaxI (a b : Int) : Int := if a < b then b else a

/-- Python `min` on two rationals (ties keep the first argument). -/
def pyMinQ (a b : ℚ) : ℚ := if b < a then b else a

/-- `clamp` of `scoring.py` (`max(lo, min(hi, n))`); every call site uses
the default bounds `lo = 0`, `hi = 100`. -/
def clamp (n : Int) : Int := pyMaxI 0 (pyMinI 100 n)

/-- `_path_depth` of `scoring.py`: the number of non-empty `/`-separated
path components. -/
def _path_depth (path : String) : Nat :=
  ((splitOnChar '/' path.data).filter (· ≠ [])).length

/-- `ScoringContext` of `scoring.py`.  `sources` and `param_names` are
Python sets of lowercased strings (modelled as deduplicated lists; only
membership, emptiness, size and a sorted projection are used). -/
structure ScoringContext where
  url : String
  sources : List String
  host : String
  path : String
  path_lc : String
  param_names : List String
  param_count : Int
  ext : String
  status : Option Int
  content_type : Option String
  redirect_location : Option String
  has_set_cookie : Bool
  www_authenticate : Bool
  response_time_ms : Option Int
  response_size_bytes : Option Int
  base_host : Option String
  unique_path : Bool
  tech : List String
deriving Repr, DecidableEq

/-- `_build_context` of `scoring.py`.  `Except.error` models the
`ValueError` that `urlparse` raises on an invalid bracketed netloc — the
function itself has no exception handling. -/
def _build_context (url : String) (sources : List String)
    (status : Option Int) (content_type : Option String)
    (redirect_location : Option String) (has_set_cookie : Bool)
    (www_authenticate : Bool) (response_time_ms : Option Int)
    (response_size_bytes : Option Int) (base_host : Option String)
    (unique_path : Bool) (tech : Option (List String)) :
    Except String ScoringContext :=
  match urlparse url with
  | .error e => .error e
  | .ok p =>
    let host := pyHostname p.netloc
    let path := p.path
    let param_names := pySet ((parseQsKeys p.query).map pyLower)
    let path_lc := pyLower path
    let ext := (DYNAMIC_EXTS.filter (fun e => strEndsWith path_lc e)).headD ""
    .ok { url := url, sources := pySet (sources.map pyLower), host := host,
          path := path, path_lc := path_lc, param_names := param_names,
          param_count := (param_names.length : Int), ext := ext,
          status := status, content_type := content_type,
          redirect_location := redirect_location,
          has_set_cookie := has_set_cookie,
          www_authenticate := www_authenticate,
          response_time_ms := response_time_ms,
          response_size_bytes := response_size_bytes,
          base_host := base_host, unique_path := unique_path,
          tech := tech.getD [] }

/-- One additive rule: if `cond` holds, add `pts` and append one reason. -/
def rule (acc : Int × List String) (cond : Bool) (pts : Int)
    (msg : String) : Int × List String :=
  if cond then (acc.1 + pts, acc.2 ++ [msg]) else acc

/-- `compute_harvest_index` of `scoring.py` (returns the clamped subscore
and the extended reason trail). -/
def compute_harvest_index (ctx : ScoringContext) (reasons : List String) :
    Int × List String :=
  let acc : Int × List String := (0, reasons)
  let acc := rule acc (ctx.sources.contains "katana") 10 "source:katana (+10 H)"
  let acc := rule acc (ctx.sources.contains "gau") 15 "source:gau (+15 H)"
  let acc := rule acc (ctx.sources.contains "gospider") 12 "source:gospider (+12 H)"
  let acc := rule acc (ctx.sources.contains "hakrawler") 12 "source:hakrawler (+12 H)"
  let acc := rule acc (ctx.sources.contains "robots") 20 "source:robots (+20 H)"
  let acc := rule acc (ctx.sources.contains "sitemap") 18 "source:sitemap (+18 H)"
  let acc := rule acc
    (match ctx.base_host with
     | some b => b ≠ "" ∧ ctx.host ≠ "" ∧ ctx.host ≠ b
     | none => false) 25 "new_host/vhost (+25 H)"
  let acc := rule acc (_path_depth ctx.path ≥ 3) 10 "path_depth>=3 (+10 H)"
  let acc := rule acc
    (match ctx.content_type with
     | some ct => ct ≠ "" ∧
         (["text/html", "application/json", "application/xml"].any
           (fun t => strContains (pyLower ct) t))
     | none => false) 10 "app_content_type (+10 H)"
  let acc := rule acc ctx.unique_path 10 "unique_path (+10 H)"
  (clamp acc.1, acc.2)

/-- Stable insertion into a sorted list of strings (code-point order, as
Python string comparison). -/
def insertSorted (x : String) : List String → List String
  | [] => [x]
  | y :: ys => if x ≤ y then x :: y :: ys else y :: insertSorted x ys

/-- Model of Python `sorted` on strings. -/
def pySorted (l : List String) : List String := l.foldr insertSorted []

/-- Model of Python `sep.join(l)`. -/
def strJoin (sep : String) : List String → String
  | [] => ""
  | x :: xs => xs.foldl (fun acc s => acc ++ sep ++ s) x

/-- `compute_juice_score` of `scoring.py`. -/
def compute_juice_score (ctx : ScoringContext) (reasons : List String) :
    Int × List String :=
  let acc : Int × List String := (0, reasons)
  let acc := rule acc (ctx.param_names ≠ []) 20 "has_params (+20 J)"
  let acc := rule acc (ctx.param_count ≥ 3) 10 "param_count>=3 (+10 J)"
  let hi_params := pySorted (ctx.param_names.filter
    (fun p => HIGH_SIGNAL_PARAM_NAMES.contains p))
  let acc := rule acc (hi_params ≠ []) 20
    ("high_signal_params:" ++ strJoin "," (hi_params.take 5) ++ " (+20 J)")
  let acc := rule acc
    (PATH_KEYWORDS.any (fun kw =>
      (splitOnChar '/' ctx.path_lc.data).contains kw.data ∨
      strContains ctx.path_lc ("/" ++ kw))) 25 "path_keywords (+25 J)"
  let acc := rule acc (ctx.ext ≠ "") 10
    ("dynamic_ext:" ++ ctx.ext ++ " (+10 J)")
  let acc := rule acc
    (strContains ctx.path_lc "/api/" ∧
      (["/v1/", "/v2/", "/v3/", "/v4/"].any
        (fun v => strContains ctx.path_lc v))) 15 "api_versioned_path (+15 J)"
  (clamp acc.1, acc.2)

/-- `compute_access_signal` of `scoring.py`. -/
def compute_access_signal (ctx : ScoringContext) (reasons : List String) :
    Int × List String :=
  let acc : Int × List String := (0, reasons)
  let acc :=
    if ctx.status = some 401 then
      rule acc true 40 "status:401 (+40 A)"
    else if ctx.status = some 403 then
      rule acc true 35 "status:403 (+35 A)"
    else if [some (301 : Int), some 302, some 303, some 307, some 308].contains
        ctx.status then
      let loc := pyLower (ctx.redirect_location.getD "")
      rule acc
        (["login", "signin", "auth", "sso", "oauth"].any
          (fun k => strContains loc k)) 25 "redirect_to_login (+25 A)"
    else acc
  let acc := rule acc ctx.www_authenticate 20 "www_authenticate (+20 A)"
  let acc := rule acc ctx.has_set_cookie 15 "set_cookie_seen (+15 A)"
  (clamp acc.1, acc.2)

/-- `compute_anomaly_signal` of `scoring.py`. -/
def compute_anomaly_signal (ctx : ScoringContext) (reasons : List String) :
    Int × List String :=
  let acc : Int × List String := (0, reasons)
  let acc := rule acc
    (match ctx.status with
     | some s => 500 ≤ s ∧ s ≤ 599
     | none => false) 35 "status:5xx (+35 N)"
  let acc := rule acc
    (match ctx.response_time_ms with
     | some t => t > 2000
     | none => false) 20 "slow_response (+20 N)"
  let acc := rule acc
    (match ctx.response_size_bytes with
     | some b => b > 1000000
     | none => false) 15 "large_response>1MB (+15 N)"
  (clamp acc.1, acc.2)

/-- The count of observed probe fields in `compute_confidence`: the code
counts a field when `v is not None and v != ""`, so a present-but-empty
string field is not counted (an `int` field is counted whenever present,
since an `int` never equals `""`). -/
def observedFields (status : Option Int)
    (content_type redirect_location : Option String)
    (response_time_ms response_size_bytes : Option Int) : Nat :=
  (if status.isSome then 1 else 0) +
  (if (content_type.map (fun s => s != "")).getD false then 1 else 0) +
  (if (redirect_location.map (fun s => s != "")).getD false then 1 else 0) +
  (if response_time_ms.isSome then 1 else 0) +
  (if response_size_bytes.isSome then 1 else 0)

/-- The observed-field count of a scoring context. -/
def observedCount (ctx : ScoringContext) : Nat :=
  observedFields ctx.status ctx.content_type ctx.redirect_location
    ctx.response_time_ms ctx.response_size_bytes

/-- `compute_confidence` of `scoring.py`. -/
def compute_confidence (ctx : ScoringContext) : ℚ :=
  pyMinQ 1 (0.55 + 0.08 * (observedCount ctx : ℚ))

/-- Python `round` on a rational: round half to even. -/
def pyRound (q : ℚ) : Int :=
  let f := q.floor
  let r := q - (f : ℚ)
  if r < 1 / 2 then f
  else if 1 / 2 < r then f + 1
  else if f % 2 = 0 then f else f + 1

/-- Python `round(x, 2)` on a rational. -/
def pyRound2 (q : ℚ) : ℚ := (pyRound (q * 100) : ℚ) / 100

/-- Model of Python `dict.update`: replace values of existing keys in
place, append new keys in order. -/
def dictUpdate (base : List (String × ℚ)) : List (String × ℚ) → List (String × ℚ)
  | [] => base
  | (k, v) :: rest =>
    dictUpdate
      (if (base.map Prod.fst).contains k
       then base.map (fun kv => if kv.1 = k then (k, v) else kv)
       else base ++ [(k, v)]) rest

/-- Dict lookup with default (keys of the weight dict are unique by
construction, so first-match lookup is exact). -/
def dictGetD (d : List (String × ℚ)) (k : String) (dflt : ℚ) : ℚ :=
  ((d.find? (fun kv => kv.1 == k)).map (·.2)).getD dflt

/-- A scoring extension (`ScoringExtension` of `scoring.py`): it receives
the context and the live reason list, may mutate (here: return) the reason
list, and either returns an `Int` bonus or raises.  Mutations of the
reason list made before a raise persist, as in Python. -/
def ScoringExtension : Type :=
  ScoringContext → List String → List String × Except String Int

/-- One iteration of the extension loop of `compute_reapscore`: a raised
exception is swallowed, a non-positive bonus is ignored, a positive bonus
is added to `J` and `J` re-clamped. -/
def extStep (ctx : ScoringContext) (acc : Int × List String)
    (extf : ScoringExtension) : Int × List String :=
  match extf ctx acc.2 with
  | (rs, .ok bonus) =>
      if bonus > 0 then (clamp (acc.1 + bonus), rs) else (acc.1, rs)
  | (rs, .error _) => (acc.1, rs)

/-- `SubScores` of `scoring.py`. -/
structure SubScores where
  harvest_index : Int
  juice_score : Int
  access_signal : Int
  anomaly_signal : Int
deriving Repr, DecidableEq

/-- `ReapResult` of `scoring.py`. -/
structure ReapResult where
  score : Int
  subs : SubScores
  reasons : List String
  confidence : ℚ
  weights : List (String × ℚ)
deriving Repr, DecidableEq

/-- `compute_reapscore` of `scoring.py`.  `Except.error` models the
`ValueError` escaping from `urlparse` via `_build_context`; nothing else
in the function can raise. -/
def compute_reapscore (url : String) (sources : List String)
    (status : Option Int) (content_type : Option String)
    (redirect_location : Option String) (has_set_cookie : Bool)
    (www_authenticate : Bool) (response_time_ms : Option Int)
    (response_size_bytes : Option Int) (base_host : Option String)
    (unique_path : Bool) (tech : Option (List String))
    (weights : Option (List (String × ℚ)))
    (extensions : List ScoringExtension) : Except String ReapResult :=
  let w := dictUpdate DEFAULT_WEIGHTS (weights.getD [])
  match _build_context url sources status content_type redirect_location
      has_set_cookie www_authenticate response_time_ms response_size_bytes
      base_host unique_path tech with
  | .error e => .error e
  | .ok ctx =>
    let hAcc := compute_harvest_index ctx []
    let jAcc := compute_juice_score ctx hAcc.2
    let aAcc := compute_access_signal ctx jAcc.2
    let nAcc := compute_anomaly_signal ctx aAcc.2
    let jExt := extensions.foldl (extStep ctx) (jAcc.1, nAcc.2)
    let confidence := compute_confidence ctx
    let score := clamp (pyRound
      (dictGetD w "harvest_index" 0 * (hAcc.1 : ℚ) +
       dictGetD w "juice_score" 0 * (jExt.1 : ℚ) +
       dictGetD w "access_signal" 0 * (aAcc.1 : ℚ) +
       dictGetD w "anomaly_signal" 0 * (nAcc.1 : ℚ)))
    .ok ⟨score, ⟨hAcc.1, jExt.1, aAcc.1, nAcc.1⟩, jExt.2,
         pyRound2 confidence, w⟩

/-! ## The scope filter (`webreaper/cli.py`) -/

/-- The keyword arguments of `_filter_url`, as assembled by `_reap_impl`.
`scope_hosts`, `exclude_hosts` and `exclude_exts` are Python sets (only
membership / emptiness is used, so list order is irrelevant). -/
structure Policy where
  scope_hosts : List String
  allow_subdomains : Bool
  exclude_hosts : List String
  include_path_tokens : List String
  exclude_path_tokens : List String
  exclude_exts : List String
  max_params : Int
  require_param : Bool
deriving Repr, DecidableEq

/-- `_host_in_scope` of `cli.py`. -/
def _host_in_scope (host : String) (scope_hosts : List String)
    (allow_subdomains : Bool) : Bool :=
  if scope_hosts = [] then true
  else
    let h := pyLower host
    scope_hosts.any (fun s0 =>
      let s := pyLower s0
      h == s || (allow_subdomains && strEndsWith h ("." ++ s)))

/-- The body of `_filter_url` after the guarded `urlparse` call: the
rule chain applied to a successfully parsed URL. -/
def filterParsed (p : ParseResult) (pol : Policy) : Bool :=
  if p.scheme = "" ∨ p.netloc = "" then false
  else
    let host := pyLower (pyHostname p.netloc)
    if (pol.exclude_hosts.map pyLower).contains host then false
    else if ¬ _host_in_scope host pol.scope_hosts pol.allow_subdomains
      then false
    else
      let path_lc := pyLower p.path
      if pol.include_path_tokens ≠ [] ∧
          ¬ pol.include_path_tokens.any (fun tok =>
            tok ≠ "" && strContains path_lc (pyLower tok)) then false
      else if pol.exclude_path_tokens.any (fun tok =>
          tok ≠ "" && strContains path_lc (pyLower tok)) then false
      else if pol.exclude_exts ≠ [] ∧
          (let last := afterLast '/' path_lc.data
           last.contains '.' ∧
             pol.exclude_exts.contains ⟨'.' :: afterLast '.' last⟩) then false
      else
        let qs := parseQsKeys p.query
        if pol.require_param ∧ qs = [] then false
        else if pol.max_params ≥ 0 ∧ (qs.length : Int) > pol.max_params
          then false
        else true

/-- `_filter_url` of `cli.py`.  Only the `urlparse` call is inside a
`try/except` (a parse error yields `False`); everything after it is a
total Python operation, so the function as a whole returns a `Bool` and
never raises. -/
def _filter_url (url : String) (pol : Policy) : Bool :=
  match urlparse url with
  | .error _ => false
  | .ok p => filterParsed p pol

/-! ## Aggregation (`_reap_impl` of `webreaper/cli.py`)

`url_sources : dict[str, set[str]]` starts as `{target: {"seed"}}`; every
harvester loop does `url_sources.setdefault(u, set()).add(tag)` for each
parsed URL.  The dict is modelled as a total map to `Finset String` with
`∅` for absent keys.  The merge loop over
`candidates = [target, *katana_urls, ...]` deduplicates in first-seen
order, applies `_filter_url` and stops at the `max_urls` cap. -/

/-- One `url_sources.setdefault(u, set()).add(tag)` step. -/
def addUrl (tag : String) (m : String → Finset String) (u : String) :
    String → Finset String :=
  fun x => if x = u then insert tag (m x) else m x

/-- Fold one harvester result `(sourceName, urlList)` into the mapping. -/
def addSource (m : String → Finset String) (p : String × List String) :
    String → Finset String :=
  p.2.foldl (addUrl p.1) m

/-- Fold a sequence of harvester results into the mapping. -/
def aggregate (pairs : List (String × List String))
    (m : String → Finset String) : String → Finset String :=
  pairs.foldl addSource m

/-- The initial mapping `{target: {"seed"}}`. -/
def seedMap (target : String) : String → Finset String :=
  fun x => if x = target then {"seed"} else ∅

/-- The candidate merge loop of `_reap_impl`: skip URLs already in
`merged`, skip URLs rejected by the filter (`keep`), append the rest, and
break once `len(merged) >= max_urls` (checked after each append, as in
the code). -/
def mergeLoop (keep : String → Bool) (maxUrls : Int) :
    List String → List String → List String
  | merged, [] => merged
  | merged, u :: rest =>
    if u ∈ merged then mergeLoop keep maxUrls merged rest
    else if ¬ keep u then mergeLoop keep maxUrls merged rest
    else
      let m2 := merged ++ [u]
      if maxUrls ≤ (m2.length : Int) then m2
      else mergeLoop keep maxUrls m2 rest

/-! ## Model of the `json` module (CPython, `dumps(..., indent=2)` and
`loads`)

The printer follows `json.dumps` with `indent=2`: objects and arrays print
one item per line with two-space indentation, empty containers print as
`[]` / the brace pair, string escapes are `\"`, `\\`, `\b`, `\f`, `\n`,
`\r`, `\t` and `\u00XX` for other control characters.  Deviations, none
load-bearing for the claims: non-ASCII characters are written literally
instead of `ensure_ascii` `\uXXXX` escapes (both forms parse back to the
same value); the number grammar covers integers only (the cache payload
contains only integers) and tolerates leading zeros; lone surrogate
`\uXXXX` escapes are rejected (Lean strings cannot represent them —
surrogate pairs are combined as in Python). -/

/-- JSON values.  Numbers are restricted to integers, matching everything
the cache store ever serializes. -/
inductive JValue where
  | jnull : JValue
  | jbool : Bool → JValue
  | jint : Int → JValue
  | jstr : String → JValue
  | jarr : List JValue → JValue
  | jobj : List (String × JValue) → JValue
deriving Repr

/-- The opening curly bracket character. -/
def lcurly : Char := Char.ofNat 123

/-- The closing curly bracket character. -/
def rcurly : Char := Char.ofNat 125

/-- Lowercase hexadecimal digit character for a value below 16. -/
def hexDigitChar (n : Nat) : Char :=
  if n < 10 then Char.ofNat (48 + n) else Char.ofNat (87 + n)

/-- JSON string escaping of one character (see the module notes). -/
def escapeChar (c : Char) : List Char :=
  if c = '"' then ['\\', '"']
  else if c = '\\' then ['\\', '\\']
  else if c.toNat = 8 then ['\\', 'b']
  else if c.toNat = 12 then ['\\', 'f']
  else if c = '\n' then ['\\', 'n']
  else if c = '\r' then ['\\', 'r']
  else if c = '\t' then ['\\', 't']
  else if c.toNat < 32 then
    ['\\', 'u', '0', '0', hexDigitChar (c.toNat / 16), hexDigitChar (c.toNat % 16)]
  else [c]

/-- The escaped body of a JSON string literal. -/
def encodeStrBody (l : List Char) : List Char :=
  l.foldr (fun c acc => escapeChar c ++ acc) []

/-- A JSON string literal with its quotes. -/
def encodeStr (s : String) : List Char :=
  '"' :: encodeStrBody s.data ++ ['"']

/-- Decimal digits of a natural number, least significant first; `fuel`
bounds the recursion and `n` itself is always enough. -/
def natDigitsAux : Nat → Nat → List Char
  | 0, _ => []
  | _ + 1, 0 => []
  | fuel + 1, n + 1 =>
    Char.ofNat (48 + (n + 1) % 10) :: natDigitsAux fuel ((n + 1) / 10)

/-- Decimal representation of a natural number. -/
def natChars (n : Nat) : List Char :=
  if n = 0 then ['0'] else (natDigitsAux n n).reverse

/-- Decimal representation of an integer (Python `repr` of an `int`). -/
def intChars (i : Int) : List Char :=
  if i < 0 then '-' :: natChars i.natAbs else natChars i.natAbs

/-- `n` spaces. -/
def nSpaces (n : Nat) : List Char := List.replicate n ' '

mutual

/-- Print a JSON value at nesting level `lvl`, following
`json.dumps(..., indent=2)`. -/
def printVal (lvl : Nat) : JValue → List Char
  | .jnull => ['n', 'u', 'l', 'l']
  | .jbool true => ['t', 'r', 'u', 'e']
  | .jbool false => ['f', 'a', 'l', 's', 'e']
  | .jint i => intChars i
  | .jstr s => encodeStr s
  | .jarr [] => ['[', ']']
  | .jarr (v :: vs) =>
    '[' :: '\n' :: (nSpaces (2 * (lvl + 1)) ++ printVal (lvl + 1) v ++
      printArrTail lvl vs)
  | .jobj [] => [lcurly, rcurly]
  | .jobj (m :: ms) =>
    lcurly :: '\n' :: (nSpaces (2 * (lvl + 1)) ++ encodeStr m.1 ++
      [':', ' '] ++ printVal (lvl + 1) m.2 ++ printObjTail lvl ms)

/-- Remaining array items after the first, plus the closing bracket. -/
def printArrTail (lvl : Nat) : List JValue → List Char
  | [] => '\n' :: (nSpaces (2 * lvl) ++ [']'])
  | v :: vs =>
    ',' :: '\n' :: (nSpaces (2 * (lvl + 1)) ++ printVal (lvl + 1) v ++
      printArrTail lvl vs)

/-- Remaining object members after the first, plus the closing bracket. -/
def printObjTail (lvl : Nat) : List (String × JValue) → List Char
  | [] => '\n' :: (nSpaces (2 * lvl) ++ [rcurly])
  | m :: ms =>
    ',' :: '\n' :: (nSpaces (2 * (lvl + 1)) ++ encodeStr m.1 ++
      [':', ' '] ++ printVal (lvl + 1) m.2 ++ printObjTail lvl ms)

end

/-- `json.dumps(v, indent=2)`. -/
def dumps (v : JValue) : String := ⟨printVal 0 v⟩

/-- A JSON whitespace character (`' '`, `'\t'`, `'\n'`, `'\r'`). -/
def isJsonWs (c : Char) : Bool :=
  c = ' ' ∨ c = '\t' ∨ c = '\n' ∨ c = '\r'

/-- JSON whitespace skipping. -/
def skipWs (cs : List Char) : List Char :=
  cs.dropWhile isJsonWs

/-- Decode a `\uXXXX` escape (with surrogate-pair combination; lone
surrogates are rejected — see the module notes). -/
def parseUEscape (cs : List Char) : Option (Char × List Char) :=
  match cs with
  | h1 :: h2 :: h3 :: h4 :: rest3 =>
    if isHexDigit h1 ∧ isHexDigit h2 ∧ isHexDigit h3 ∧ isHexDigit h4 then
      let code := hexVal h1 * 4096 + hexVal h2 * 256 + hexVal h3 * 16 +
        hexVal h4
      if 55296 ≤ code ∧ code ≤ 56319 then
        match rest3 with
        | b1 :: b2 :: g1 :: g2 :: g3 :: g4 :: rest4 =>
          if b1 = '\\' ∧ b2 = 'u' ∧ isHexDigit g1 ∧ isHexDigit g2 ∧
              isHexDigit g3 ∧ isHexDigit g4 then
            let code2 := hexVal g1 * 4096 + hexVal g2 * 256 +
              hexVal g3 * 16 + hexVal g4
            if 56320 ≤ code2 ∧ code2 ≤ 57343 then
              some (Char.ofNat (65536 + (code - 55296) * 1024 +
                (code2 - 56320)), rest4)
            else none
          else none
        | _ => none
      else if 56320 ≤ code ∧ code ≤ 57343 then none
      else some (Char.ofNat code, rest3)
    else none
  | _ => none

/-- Decode one escape sequence after a backslash. -/
def parseEscape (cs : List Char) : Option (Char × List Char) :=
  match cs with
  | [] => none
  | e :: rest2 =>
    if e = '"' then some ('"', rest2)
    else if e = '\\' then some ('\\', rest2)
    else if e = '/' then some ('/', rest2)
    else if e = 'b' then some (Char.ofNat 8, rest2)
    else if e = 'f' then some (Char.ofNat 12, rest2)
    else if e = 'n' then some ('\n', rest2)
    else if e = 'r' then some ('\r', rest2)
    else if e = 't' then some ('\t', rest2)
    else if e = 'u' then parseUEscape rest2
    else none

/-- One step of the string-literal parser, with the recursive
continuation passed explicitly. -/
def parseStrF (rec : List Char → Option (List Char × List Char)) :
    List Char → Option (List Char × List Char)
  | [] => none
  | c :: rest =>
    if c = '"' then some ([], rest)
    else if c = '\\' then
      match parseEscape rest with
      | some (ch, r) => (rec r).map (fun (s, r2) => (ch :: s, r2))
      | none => none
    else if c.toNat < 32 then none
    else (rec rest).map (fun (s, r2) => (c :: s, r2))

/-- Parse the body of a JSON string literal after the opening quote;
returns the decoded characters and the remaining input.  Unescaped
control characters are rejected (`json.loads` strict mode).  The fuel
only bounds the recursion: every step consumes at least one input
character, so the `input length + 1` the callers pass always suffices. -/
def parseStrBody : Nat → List Char → Option (List Char × List Char)
  | 0, _ => none
  | fuel + 1, cs => parseStrF (parseStrBody fuel) cs

/-- Value of a list of decimal digit characters, least significant
first. -/
def ofDigitsLSB : List Char → Nat
  | [] => 0
  | c :: rest => (c.toNat - 48) + 10 * ofDigitsLSB rest

/-- Value of a list of decimal digit characters, most significant
first. -/
def digitsVal (ds : List Char) : Nat := ofDigitsLSB ds.reverse

/-- What the JSON parser is currently parsing: a value, the elements of a
non-empty array, or the members of a non-empty object. -/
inductive PMode where
  | val : PMode
  | elems : PMode
  | members : PMode

/-- The result of one parse: a value, an element list, or a member
list. -/
inductive PRes where
  | rv : JValue → PRes
  | rl : List JValue → PRes
  | rm : List (String × JValue) → PRes

/-- One step of the value parser (JSON grammar dispatch on the first
non-whitespace character), with the recursive continuation passed
explicitly. -/
def parseValF (rec : PMode → List Char → Option (PRes × List Char))
    (cs0 : List Char) : Option (PRes × List Char) :=
  match skipWs cs0 with
  | [] => none
  | c :: rest =>
    if c = '"' then
      (parseStrBody (rest.length + 1) rest).map
        (fun (s, r) => (.rv (.jstr ⟨s⟩), r))
    else if c = lcurly then
      match skipWs rest with
      | d :: r =>
        if d = rcurly then some (.rv (.jobj []), r)
        else
          match rec .members (d :: r) with
          | some (.rm ms, r2) => some (.rv (.jobj ms), r2)
          | _ => none
      | [] => none
    else if c = '[' then
      match skipWs rest with
      | d :: r =>
        if d = ']' then some (.rv (.jarr []), r)
        else
          match rec .elems (d :: r) with
          | some (.rl vs, r2) => some (.rv (.jarr vs), r2)
          | _ => none
      | [] => none
    else if c = 't' then
      if rest.take 3 = ['r', 'u', 'e'] then
        some (.rv (.jbool true), rest.drop 3)
      else none
    else if c = 'f' then
      if rest.take 4 = ['a', 'l', 's', 'e'] then
        some (.rv (.jbool false), rest.drop 4)
      else none
    else if c = 'n' then
      if rest.take 3 = ['u', 'l', 'l'] then
        some (.rv .jnull, rest.drop 3)
      else none
    else if c = '-' then
      let ds := rest.takeWhile Char.isDigit
      if ds = [] then none
      else some (.rv (.jint (-(digitsVal ds : Int))), rest.drop ds.length)
    else if c.isDigit then
      let ds := (c :: rest).takeWhile Char.isDigit
      some (.rv (.jint (digitsVal ds : Int)), (c :: rest).drop ds.length)
    else none

/-- One step of the array-element loop, with the recursive continuation
passed explicitly. -/
def parseElemsF (rec : PMode → List Char → Option (PRes × List Char))
    (cs : List Char) : Option (PRes × List Char) :=
  match rec .val cs with
  | some (.rv v, r) =>
    (match skipWs r with
     | ',' :: r2 =>
       match rec .elems r2 with
       | some (.rl vs, r3) => some (.rl (v :: vs), r3)
       | _ => none
     | ']' :: r2 => some (.rl [v], r2)
     | _ => none)
  | _ => none

/-- One step of the object-member loop, with the recursive continuation
passed explicitly. -/
def parseMembersF (rec : PMode → List Char → Option (PRes × List Char))
    (cs : List Char) : Option (PRes × List Char) :=
  match skipWs cs with
  | '"' :: r =>
    match parseStrBody (r.length + 1) r with
    | some (k, r2) =>
      (match skipWs r2 with
       | ':' :: r3 =>
         match rec .val r3 with
         | some (.rv v, r4) =>
           (match skipWs r4 with
            | ',' :: r5 =>
              match rec .members r5 with
              | some (.rm ms, r6) => some (.rm ((⟨k⟩, v) :: ms), r6)
              | _ => none
            | c2 :: r5 =>
              if c2 = rcurly then some (.rm [(⟨k⟩, v)], r5) else none
            | [] => none)
         | _ => none
       | _ => none)
    | none => none
  | _ => none

/-- The JSON grammar parser: one fueled function covering values, array
elements and object members.  Each recursive call burns one unit of
fuel, so any fuel of at least the printed size of a value is enough, and
the `input length + 1` that `loads` passes always dominates that
bound. -/
def parseJ : Nat → PMode → List Char → Option (PRes × List Char)
  | 0, _, _ => none
  | fuel + 1, .val, cs => parseValF (parseJ fuel) cs
  | fuel + 1, .elems, cs => parseElemsF (parseJ fuel) cs
  | fuel + 1, .members, cs => parseMembersF (parseJ fuel) cs

mutual

/-- A node-count measure of a JSON value, bounding the parse fuel the
round-trip proof needs. -/
def jsize : JValue → Nat
  | .jnull => 1
  | .jbool _ => 1
  | .jint _ => 1
  | .jstr _ => 1
  | .jarr vs => 1 + jsizeList vs
  | .jobj ms => 1 + jsizeMems ms

/-- Measure of an array element list. -/
def jsizeList : List JValue → Nat
  | [] => 1
  | v :: vs => 1 + jsize v + jsizeList vs

/-- Measure of an object member list. -/
def jsizeMems : List (String × JValue) → Nat
  | [] => 1
  | m :: ms => 1 + jsize m.2 + jsizeMems ms

end

/-- The head of the remaining input is not a decimal digit (holds at every
point where the printer puts a value; keeps the number parser from
consuming past a printed integer). -/
def headNotDigit (cs : List Char) : Prop :=
  match cs with
  | [] => True
  | c :: _ => c.isDigit = false

/-- `json.loads`: parse a complete JSON document, rejecting trailing
non-whitespace (`Extra data`). -/
def loads (s : String) : Option JValue :=
  match parseJ (s.data.length + 1) .val s.data with
  | some (.rv v, rest) => if skipWs rest = [] then some v else none
  | _ => none

/-! ## The raw cache store (`webreaper/storage/raw_store.py` and
`webreaper/utils.py`)

The file system is modelled as a partial map from path strings to file
content strings. -/

/-- A character kept verbatim by `safe_name` (`[a-zA-Z0-9._-]`). -/
def isSafeChar (c : Char) : Bool :=
  c.isAlphanum ∨ c = '.' ∨ c = '_' ∨ c = '-'

/-- Replace every maximal run of unsafe characters by one `_`
(`re.sub(r"[^a-zA-Z0-9._-]+", "_", s)`). -/
def collapseUnsafe : List Char → List Char
  | [] => []
  | c :: rest =>
    if isSafeChar c then c :: collapseUnsafe rest
    else '_' :: collapseUnsafe (rest.dropWhile (fun d => ¬ isSafeChar d))
termination_by cs => cs.length
decreasing_by
  · simp
  · have h := (List.dropWhile_sublist
      (l := rest) (fun d => decide ¬ isSafeChar d = true)).length_le
    simp only [List.length_cons]
    omega

/-- `safe_name` of `webreaper/utils.py`. -/
def safe_name (s : String) : String := ⟨(collapseUnsafe s.data).take 90⟩

/-- The file system: a partial map from paths to file contents. -/
def FS : Type := String → Option String

/-- `get_raw_file_path` of `raw_store.py` (POSIX path join). -/
def get_raw_file_path (out_dir source target : String) : String :=
  out_dir ++ "/" ++ "raw_" ++ source ++ "_" ++ safe_name target ++ ".json"

/-- The payload dict built by `save_raw_data`, in insertion order. -/
def payloadJson (source target : String) (data : List String) : JValue :=
  .jobj [("source", .jstr source), ("target", .jstr target),
         ("url_count", .jint (data.length : Int)),
         ("urls", .jarr (data.map .jstr))]

/-- `save_raw_data` of `raw_store.py`: write
`json.dumps(payload, indent=2)` at the snapshot path (directory creation
is a no-op in the map model). -/
def save_raw_data (fs : FS) (out_dir source target : String)
    (data : List String) : FS :=
  fun p =>
    if p = get_raw_file_path out_dir source target
    then some (dumps (payloadJson source target data))
    else fs p

/-- Lookup in a parsed JSON object with Python dict semantics (the last
occurrence of a duplicated key wins). -/
def jobjGet (ms : List (String × JValue)) (k : String) : Option JValue :=
  (ms.reverse.find? (fun kv => kv.1 == k)).map (·.2)

/-- `load_raw_data` of `raw_store.py`: `None` for a missing file, a
`JSONDecodeError` (or a parse result that is not a dict with an `urls`
key) also yields `None`. -/
def load_raw_data (fs : FS) (out_dir source target : String) : Option JValue :=
  match fs (get_raw_file_path out_dir source target) with
  | none => none
  | some content =>
    match loads content with
    | some (.jobj ms) => jobjGet ms "urls"
    | _ => none

/-- `should_harvest` of `raw_store.py`. -/
def should_harvest (fs : FS) (out_dir source target : String)
    (resume : Bool) : Bool :=
  if ¬ resume then true
  else (load_raw_data fs out_dir source target).isNone

/-- The spec-level resume predicate
`should_skip(name, resumeEnabled) := resumeEnabled AND exists(name)`:
in the code it is exactly the negation of `should_harvest` (cached data is
used iff harvesting is skipped). -/
def should_skip (fs : FS) (out_dir source target : String)
    (resume : Bool) : Bool :=
  ¬ should_harvest fs out_dir source target resume

/-! ## Concrete scoring extensions used to probe the extension contract -/

/-- A scoring extension that appends a marker to the shared reason list
and then raises (in Python: `reasons.append("ext:poison"); raise ...`).
The mutation made before the raise persists, as it does in Python. -/
def extAppendRaise : ScoringExtension :=
  fun _ rs => (rs ++ ["ext:poison"], .error "boom")

/-- A scoring extension that inspects the shared reason list it receives
and returns a bonus of 10 exactly when the marker of `extAppendRaise` is
present (in Python: `return 10 if "ext:poison" in reasons else 0`). -/
def extReadBonus : ScoringExtension :=
  fun _ rs => (rs, .ok (if rs.contains "ext:poison" then 10 else 0))

/-- The spec-side observed-field count as claim C3 reads it: a field
counts whenever it is non-absent (`Option.isSome`), including a present
empty string. -/
def observedFields_specModel (status : Option Int)
    (content_type redirect_location : Option String)
    (response_time_ms response_size_bytes : Option Int) : Nat :=
  (if status.isSome then 1 else 0) +
  (if content_type.isSome then 1 else 0) +
  (if redirect_location.isSome then 1 else 0) +
  (if response_time_ms.isSome then 1 else 0) +
  (if response_size_bytes.isSome then 1 else 0)

/-! # Theorems -/

/-! ## Generic facts about the embedded definitions -/

/-- `clamp` always lands in `[0, 100]`. -/
theorem clamp_bounds (n : Int) : 0 ≤ clamp n ∧ clamp n ≤ 100 := by
  unfold clamp pyMaxI pyMinI
  split_ifs <;> omega

/-! ## Claim C1: composite score shape and range -/

/-- C1: for every input to `compute_reapscore` that returns a result, the
composite score equals `clamp(round(w_H*H + w_J*J + w_A*A + w_N*N))`
computed from the returned subscores and the returned weights, and
therefore lies in `[0, 100]`. -/
theorem claim_C1 (url : String) (sources : List String) (status : Option Int)
    (content_type redirect_location : Option String)
    (has_set_cookie www_authenticate : Bool)
    (response_time_ms response_size_bytes : Option Int)
    (base_host : Option String) (unique_path : Bool)
    (tech : Option (List String)) (weights : Option (List (String × ℚ)))
    (extensions : List ScoringExtension) (r : ReapResult)
    (h : compute_reapscore url sources status content_type
      redirect_location has_set_cookie www_authenticate response_time_ms
      response_size_bytes base_host unique_path tech weights extensions
      = .ok r) :
    r.score = clamp (pyRound
      (dictGetD r.weights "harvest_index" 0 * (r.subs.harvest_index : ℚ) +
       dictGetD r.weights "juice_score" 0 * (r.subs.juice_score : ℚ) +
       dictGetD r.weights "access_signal" 0 * (r.subs.access_signal : ℚ) +
       dictGetD r.weights "anomaly_signal" 0 * (r.subs.anomaly_signal : ℚ)))
    ∧ 0 ≤ r.score ∧ r.score ≤ 100 := by
  unfold compute_reapscore at h
  cases hb : _build_context url sources status content_type
      redirect_location has_set_cookie www_authenticate response_time_ms
      response_size_bytes base_host unique_path tech with
  | error e => rw [hb] at h; cases h
  | ok ctx =>
    rw [hb] at h
    cases h
    exact ⟨rfl, clamp_bounds _⟩

/-- Witness for C1 at a concrete input: the spec's end-to-end example URL
with the `robots` source and no probe data. -/
theorem claim_C1_witness :
    (18 : Int) = clamp (pyRound
      (dictGetD DEFAULT_WEIGHTS "harvest_index" 0 * ((30 : Int) : ℚ) +
       dictGetD DEFAULT_WEIGHTS "juice_score" 0 * ((25 : Int) : ℚ) +
       dictGetD DEFAULT_WEIGHTS "access_signal" 0 * ((0 : Int) : ℚ) +
       dictGetD DEFAULT_WEIGHTS "anomaly_signal" 0 * ((0 : Int) : ℚ)))
    ∧ (0 : Int) ≤ 18 ∧ (18 : Int) ≤ 100 :=
  claim_C1 "http://example.com/admin" ["robots"] none none none false false
    none none none true none none []
    ⟨18, ⟨30, 25, 0, 0⟩,
      ["source:robots (+20 H)", "unique_path (+10 H)",
       "path_keywords (+25 J)"], 0.55, DEFAULT_WEIGHTS⟩
    (by with_unfolding_all decide)

/-! ## Claim C2: `compute_reapscore` on malformed URLs

The spec requires that malformed URLs never raise.  `_build_context`
calls `urlparse` with no exception handling, and `urlparse` raises
`ValueError("Invalid IPv6 URL")` on a netloc with an unbalanced bracket,
so `compute_reapscore("http://[", ...)` raises.  (The same repository
guards the very same call with `try/except` in `_filter_url`.) -/

/-- C2 (code-bug evidence): at the failing input `"http://["` the engine
raises instead of degrading — the error from `urlparse` escapes
`compute_reapscore`. -/
theorem claim_C2_code_behavior :
    compute_reapscore "http://[" ["seed"] none none none false false none
      none none true none none [] = .error "Invalid IPv6 URL" := by decide

/-! ## Claim C3: confidence formula -/

/-- C3 (counterexample): with `content_type` present but empty (and every
other probe field absent) the code returns the floor confidence `0.55`,
while the claim's count of non-absent fields is `1`, whose formula value
`0.63` differs. -/
theorem claim_C3_counterexample :
    ((compute_reapscore "http://e/" [] none (some "") none false false none
      none none false none none []).map (·.confidence)) = .ok 0.55 ∧
    observedFields_specModel none (some "") none none none = 1 ∧
    pyMinQ 1 (0.55 + 0.08 * ((1 : Nat) : ℚ)) = 0.63 ∧ (0.55 : ℚ) ≠ 0.63 := by
  with_unfolding_all decide

/-- The code's observed-field count never exceeds 5. -/
theorem observedFields_le (status : Option Int)
    (content_type redirect_location : Option String)
    (response_time_ms response_size_bytes : Option Int) :
    observedFields status content_type redirect_location response_time_ms
      response_size_bytes ≤ 5 := by
  unfold observedFields
  split_ifs <;> omega

/-- Rounding to two decimals is the identity on every reachable
confidence value. -/
theorem pyRound2_conf (n : Nat) (hn : n ≤ 5) :
    pyRound2 (pyMinQ 1 (0.55 + 0.08 * (n : ℚ)))
      = pyMinQ 1 (0.55 + 0.08 * (n : ℚ)) := by
  interval_cases n <;> with_unfolding_all decide

/-- C3 (amended): the returned confidence equals
`min(1.0, 0.55 + 0.08 * n)` where `n` counts the probe fields that are
present and — for the string-valued fields — non-empty; with every field
absent the confidence is exactly `0.55`. -/
theorem claim_C3_amended (url : String) (sources : List String)
    (status : Option Int) (content_type redirect_location : Option String)
    (has_set_cookie www_authenticate : Bool)
    (response_time_ms response_size_bytes : Option Int)
    (base_host : Option String) (unique_path : Bool)
    (tech : Option (List String)) (weights : Option (List (String × ℚ)))
    (extensions : List ScoringExtension) (r : ReapResult)
    (h : compute_reapscore url sources status content_type
      redirect_location has_set_cookie www_authenticate response_time_ms
      response_size_bytes base_host unique_path tech weights extensions
      = .ok r) :
    r.confidence = pyMinQ 1 (0.55 + 0.08 * (observedFields status
      content_type redirect_location response_time_ms
      response_size_bytes : ℚ)) ∧
    (status = none → content_type = none → redirect_location = none →
      response_time_ms = none → response_size_bytes = none →
      r.confidence = 0.55) := by
  unfold compute_reapscore at h
  cases hb : _build_context url sources status content_type
      redirect_location has_set_cookie www_authenticate response_time_ms
      response_size_bytes base_host unique_path tech with
  | error e => rw [hb] at h; cases h
  | ok ctx =>
    rw [hb] at h
    have hctx : ctx.status = status ∧ ctx.content_type = content_type ∧
        ctx.redirect_location = redirect_location ∧
        ctx.response_time_ms = response_time_ms ∧
        ctx.response_size_bytes = response_size_bytes := by
      unfold _build_context at hb
      cases hp : urlparse url with
      | error e => rw [hp] at hb; cases hb
      | ok p => rw [hp] at hb; cases hb; exact ⟨rfl, rfl, rfl, rfl, rfl⟩
    cases h
    have hconf : (compute_confidence ctx) = pyMinQ 1 (0.55 + 0.08 *
        (observedFields status content_type redirect_location
          response_time_ms response_size_bytes : ℚ)) := by
      unfold compute_confidence observedCount
      rw [hctx.1, hctx.2.1, hctx.2.2.1, hctx.2.2.2.1, hctx.2.2.2.2]
    constructor
    · show pyRound2 (compute_confidence ctx) = _
      rw [hconf, pyRound2_conf _ (observedFields_le _ _ _ _ _)]
    · intro h1 h2 h3 h4 h5
      show pyRound2 (compute_confidence ctx) = 0.55
      rw [hconf]
      subst h1 h2 h3 h4 h5
      with_unfolding_all decide

/-- Witness for C3 (amended) at a concrete input: one probe field
present. -/
theorem claim_C3_witness :
    ((0.63 : ℚ) = pyMinQ 1 (0.55 + 0.08 * (observedFields (some 200) none
      none none none : ℚ)) ∧
    (some (200 : Int) = none → (none : Option String) = none →
      (none : Option String) = none → (none : Option Int) = none →
      (none : Option Int) = none → (0.63 : ℚ) = 0.55)) :=
  claim_C3_amended "http://e/" [] (some 200) none none false false none
    none none false none none []
    ⟨0, ⟨0, 0, 0, 0⟩, [], 0.63, DEFAULT_WEIGHTS⟩
    (by with_unfolding_all decide)

/-! ## Claim C4: scoring extensions -/

/-- One extension step never lowers `J` and never pushes it above 100. -/
theorem extStep_bounds (ctx : ScoringContext) (acc : Int × List String)
    (e : ScoringExtension) (h : acc.1 ≤ 100) :
    acc.1 ≤ (extStep ctx acc e).1 ∧ (extStep ctx acc e).1 ≤ 100 := by
  unfold extStep
  cases he : e ctx acc.2 with
  | mk rs res =>
    cases res with
    | ok b =>
      by_cases hb : b > 0
      · simp only [hb, if_pos]
        unfold clamp pyMaxI pyMinI
        constructor <;> (split_ifs <;> omega)
      · simp only [hb, if_neg, if_false]
        exact ⟨le_refl _, h⟩
    | error msg => exact ⟨le_refl _, h⟩

/-- The extension fold never lowers `J` and never pushes it above 100. -/
theorem foldl_extStep_bounds (ctx : ScoringContext)
    (exts : List ScoringExtension) :
    ∀ (J : Int) (rs : List String), J ≤ 100 →
      J ≤ (exts.foldl (extStep ctx) (J, rs)).1 ∧
      (exts.foldl (extStep ctx) (J, rs)).1 ≤ 100 := by
  induction exts with
  | nil => intro J rs h; exact ⟨le_refl _, h⟩
  | cons e es ih =>
    intro J rs h
    simp only [List.foldl_cons]
    have h1 := extStep_bounds ctx (J, rs) e h
    have h2 := ih (extStep ctx (J, rs) e).1 (extStep ctx (J, rs) e).2 h1.2
    rw [Prod.mk.eta] at h2
    exact ⟨le_trans h1.1 h2.1, h2.2⟩

/-- C4 (counterexample): an extension that appends to the shared rationale
list and then raises changes the result of a later extension that reads
the list — with base `J = 0`, running `[extAppendRaise, extReadBonus]`
yields `J = 10` while running `[extReadBonus]` alone yields `J = 0`, so
the raising extension is not isolated from the others and removing it does
not leave the result identical. -/
theorem claim_C4_counterexample :
    ((compute_reapscore "http://e/" [] none none none false false none none
      none false none none [extAppendRaise, extReadBonus]).map
        (·.subs.juice_score)) = .ok 10 ∧
    ((compute_reapscore "http://e/" [] none none none false false none none
      none false none none [extReadBonus]).map
        (·.subs.juice_score)) = .ok 0 := by
  with_unfolding_all decide

/-- C4 (amended): extensions can touch only the JuiceScore, and only
upward — `H`, `A`, `N`, the confidence and the weights are those of the
extension-free run, `J` never decreases relative to it and stays at most
100 (each step ignores raising or non-positive extensions and clamps after
adding a positive bonus); isolation of the scores holds at every step,
but through the shared rationale list a raising extension can still
influence later extensions and the rationale trail. -/
theorem claim_C4_amended (url : String) (sources : List String)
    (status : Option Int) (content_type redirect_location : Option String)
    (has_set_cookie www_authenticate : Bool)
    (response_time_ms response_size_bytes : Option Int)
    (base_host : Option String) (unique_path : Bool)
    (tech : Option (List String)) (weights : Option (List (String × ℚ)))
    (exts : List ScoringExtension) (r r0 : ReapResult)
    (hx : compute_reapscore url sources status content_type
      redirect_location has_set_cookie www_authenticate response_time_ms
      response_size_bytes base_host unique_path tech weights exts = .ok r)
    (h0 : compute_reapscore url sources status content_type
      redirect_location has_set_cookie www_authenticate response_time_ms
      response_size_bytes base_host unique_path tech weights [] = .ok r0) :
    r.subs.harvest_index = r0.subs.harvest_index ∧
    r.subs.access_signal = r0.subs.access_signal ∧
    r.subs.anomaly_signal = r0.subs.anomaly_signal ∧
    r.confidence = r0.confidence ∧
    r.weights = r0.weights ∧
    r0.subs.juice_score ≤ r.subs.juice_score ∧
    r.subs.juice_score ≤ 100 := by
  unfold compute_reapscore at hx h0
  cases hb : _build_context url sources status content_type
      redirect_location has_set_cookie www_authenticate response_time_ms
      response_size_bytes base_host unique_path tech with
  | error e => rw [hb] at hx; cases hx
  | ok ctx =>
    rw [hb] at hx h0
    cases hx
    cases h0
    have hJ : (compute_juice_score ctx (compute_harvest_index ctx []).2).1
        ≤ 100 := by
      show clamp _ ≤ 100
      exact (clamp_bounds _).2
    have hf := foldl_extStep_bounds ctx exts
      (compute_juice_score ctx (compute_harvest_index ctx []).2).1
      (compute_anomaly_signal ctx
        (compute_access_signal ctx
          (compute_juice_score ctx (compute_harvest_index ctx []).2).2).2).2
      hJ
    exact ⟨rfl, rfl, rfl, rfl, rfl, hf.1, hf.2⟩

/-- Witness for C4 (amended) at a concrete input: one well-behaved
extension against the extension-free run. -/
theorem claim_C4_witness :
    (0 : Int) = 0 ∧ (0 : Int) = 0 ∧ (0 : Int) = 0 ∧ (0.55 : ℚ) = 0.55 ∧
    DEFAULT_WEIGHTS = DEFAULT_WEIGHTS ∧ (0 : Int) ≤ 0 ∧ (0 : Int) ≤ 100 :=
  claim_C4_amended "http://e/" [] none none none false false none none none
    false none none [extReadBonus]
    ⟨0, ⟨0, 0, 0, 0⟩, [], 0.55, DEFAULT_WEIGHTS⟩
    ⟨0, ⟨0, 0, 0, 0⟩, [], 0.55, DEFAULT_WEIGHTS⟩
    (by with_unfolding_all decide) (by with_unfolding_all decide)

/-! ## Claims C5 and C6: the scope filter -/

/-- `Char.ofNat` round-trips through `toNat` below the surrogate range. -/
theorem toNat_ofNat_valid (n : Nat) (h : n < 55296) :
    (Char.ofNat n).toNat = n := by
  have hv : n.isValidChar := Or.inl h
  unfold Char.ofNat
  rw [dif_pos hv]
  rfl

/-- Lowercasing a character is idempotent. -/
theorem pyLowerChar_idem (c : Char) :
    pyLowerChar (pyLowerChar c) = pyLowerChar c := by
  unfold pyLowerChar
  by_cases h : 65 ≤ c.toNat ∧ c.toNat ≤ 90
  · have hv := toNat_ofNat_valid (c.toNat + 32) (by omega)
    rw [if_pos h, if_neg (by rw [hv]; omega)]
  · rw [if_neg h, if_neg h]

/-- Lowercasing a string is idempotent. -/
theorem pyLower_idem (s : String) : pyLower (pyLower s) = pyLower s := by
  unfold pyLower
  congr 1
  show List.map pyLowerChar (List.map pyLowerChar s.data)
    = List.map pyLowerChar s.data
  rw [List.map_map]
  exact List.map_congr_left (fun c _ => pyLowerChar_idem c)

/-- C5 (counterexample): `"http://:8080/x"` parses with scheme `http` and
an empty host (the netloc is only a port), yet the filter keeps it under
the empty policy — so a URL without a non-empty host is not always
rejected. -/
theorem claim_C5_counterexample :
    _filter_url "http://:8080/x" ⟨[], true, [], [], [], [], -1, false⟩
      = true ∧
    (urlparse "http://:8080/x").map (fun p => pyHostname p.netloc)
      = .ok "" ∧
    (urlparse "http://:8080/x").map (fun p => p.scheme) = .ok "http" := by
  decide

/-- C5 (amended): the filter is total by construction (only the `urlparse`
call can raise and it is guarded); it returns false whenever `urlparse`
raises, and whenever the URL parses without a non-empty scheme and a
non-empty netloc (authority).  The host itself may be empty when the
authority is non-empty. -/
theorem claim_C5_amended (url : String) (pol : Policy) :
    (∀ e, urlparse url = .error e → _filter_url url pol = false) ∧
    (∀ p, urlparse url = .ok p → p.scheme = "" ∨ p.netloc = "" →
      _filter_url url pol = false) := by
  constructor
  · intro e he
    unfold _filter_url
    rw [he]
  · intro p hp hsn
    unfold _filter_url
    rw [hp]
    show filterParsed p pol = false
    unfold filterParsed
    rw [if_pos hsn]

/-- Witness for C5 (amended) at concrete inputs: a scheme-less URL and a
URL on which `urlparse` raises. -/
theorem claim_C5_witness :
    _filter_url "/nopath" ⟨[], true, [], [], [], [], -1, false⟩ = false ∧
    _filter_url "http://[" ⟨[], true, [], [], [], [], -1, false⟩ = false :=
  ⟨(claim_C5_amended "/nopath" ⟨[], true, [], [], [], [], -1, false⟩).2
      ⟨"", "", "/nopath", "", "", ""⟩ (by decide) (Or.inl rfl),
    (claim_C5_amended "http://[" ⟨[], true, [], [], [], [], -1, false⟩).1
      "Invalid IPv6 URL" (by decide)⟩

/-- C6: the exclude-host rule fires before the scope-host rule — a URL
whose lowercased host is in the lowercased exclude set is rejected no
matter what the scope says; and with a non-empty scope, a kept URL's host
must equal some scope host (case-insensitively) or, when subdomains are
allowed, end with `"." + scopeHost`. -/
theorem claim_C6 (url : String) (pol : Policy) (p : ParseResult)
    (hp : urlparse url = .ok p) :
    ((pol.exclude_hosts.map pyLower).contains
        (pyLower (pyHostname p.netloc)) = true →
      _filter_url url pol = false) ∧
    (pol.scope_hosts ≠ [] → _filter_url url pol = true →
      ∃ s ∈ pol.scope_hosts,
        pyLower (pyHostname p.netloc) = pyLower s ∨
        (pol.allow_subdomains = true ∧
          strEndsWith (pyLower (pyHostname p.netloc))
            ("." ++ pyLower s) = true)) := by
  constructor
  · intro hex
    unfold _filter_url
    rw [hp]
    show filterParsed p pol = false
    unfold filterParsed
    by_cases h1 : p.scheme = "" ∨ p.netloc = ""
    · rw [if_pos h1]
    · rw [if_neg h1, if_pos hex]
  · intro hscope hkeep
    unfold _filter_url at hkeep
    rw [hp] at hkeep
    have hk : filterParsed p pol = true := hkeep
    unfold filterParsed at hk
    by_cases h1 : p.scheme = "" ∨ p.netloc = ""
    · rw [if_pos h1] at hk; cases hk
    · rw [if_neg h1] at hk
      by_cases h2 : (pol.exclude_hosts.map pyLower).contains
          (pyLower (pyHostname p.netloc)) = true
      · rw [if_pos h2] at hk; cases hk
      · rw [if_neg h2] at hk
        by_cases h3 : _host_in_scope (pyLower (pyHostname p.netloc))
            pol.scope_hosts pol.allow_subdomains = true
        · unfold _host_in_scope at h3
          rw [if_neg hscope] at h3
          obtain ⟨s0, hs0, hpred⟩ := List.any_eq_true.mp h3
          refine ⟨s0, hs0, ?_⟩
          have hpred2 : (pyLower (pyLower (pyHostname p.netloc))
              == pyLower s0 ||
              (pol.allow_subdomains &&
                strEndsWith (pyLower (pyLower (pyHostname p.netloc)))
                  ("." ++ pyLower s0))) = true := hpred
          rw [pyLower_idem (pyHostname p.netloc)] at hpred2
          simp only [Bool.or_eq_true, Bool.and_eq_true] at hpred2
          rcases hpred2 with h | ⟨ha, hb⟩
          · exact Or.inl (eq_of_beq h)
          · exact Or.inr ⟨ha, hb⟩
        · rw [if_pos h3] at hk; cases hk

/-- Witness for C6 at concrete inputs: an excluded host inside the scope
is rejected, and a kept subdomain matches the scope suffix rule. -/
theorem claim_C6_witness :
    _filter_url "http://a.example.com/x"
      ⟨["example.com"], true, ["A.EXAMPLE.COM"], [], [], [], -1, false⟩
      = false ∧
    ∃ s ∈ ["example.com"],
      pyLower (pyHostname "a.example.com") = pyLower s ∨
      (true = true ∧
        strEndsWith (pyLower (pyHostname "a.example.com"))
          ("." ++ pyLower s) = true) :=
  ⟨(claim_C6 "http://a.example.com/x"
      ⟨["example.com"], true, ["A.EXAMPLE.COM"], [], [], [], -1, false⟩
      ⟨"http", "a.example.com", "/x", "", "", ""⟩ (by decide)).1 (by decide),
    (claim_C6 "http://a.example.com/x"
      ⟨["example.com"], true, [], [], [], [], -1, false⟩
      ⟨"http", "a.example.com", "/x", "", "", ""⟩ (by decide)).2
      (by decide) (by decide)⟩

/-! ## Claim C10: aggregation is a commutative, idempotent set union -/

/-- Membership characterization of one `addSource` fold. -/
theorem mem_addSource (m : String → Finset String)
    (q : String × List String) (x : String) (y : String) :
    y ∈ addSource m q x ↔ y ∈ m x ∨ (x ∈ q.2 ∧ y = q.1) := by
  obtain ⟨t, us⟩ := q
  induction us generalizing m with
  | nil => simp [addSource]
  | cons u us ih =>
    simp only [addSource, List.foldl_cons] at *
    rw [ih (addUrl t m u)]
    unfold addUrl
    by_cases hxu : x = u
    · subst hxu
      rw [if_pos rfl]
      simp only [Finset.mem_insert, List.mem_cons]
      tauto
    · rw [if_neg hxu]
      simp only [List.mem_cons]
      tauto

/-- Membership characterization of the aggregation fold: a tag lands in
the source set of `x` iff it was there initially or some folded pair
contributes it. -/
theorem mem_aggregate (pairs : List (String × List String))
    (m : String → Finset String) (x y : String) :
    y ∈ aggregate pairs m x ↔
      y ∈ m x ∨ ∃ q ∈ pairs, x ∈ q.2 ∧ y = q.1 := by
  induction pairs generalizing m with
  | nil => simp [aggregate]
  | cons q qs ih =>
    simp only [aggregate, List.foldl_cons] at *
    rw [ih (addSource m q), mem_addSource]
    constructor
    · rintro ((hy | hc) | ⟨p, hp, hP⟩)
      · exact Or.inl hy
      · exact Or.inr ⟨q, by simp, hc⟩
      · exact Or.inr ⟨p, by simp [hp], hP⟩
    · rintro (hy | ⟨p, hp, hP⟩)
      · exact Or.inl (Or.inl hy)
      · rcases List.mem_cons.mp hp with rfl | hp2
        · exact Or.inl (Or.inr hP)
        · exact Or.inr ⟨p, hp2, hP⟩

/-- `mergeLoop` leaves `merged` unchanged on candidates that are already
merged or rejected. -/
theorem mergeLoop_skip (keep : String → Bool) (maxU : Int)
    (ys : List String) :
    ∀ merged, (∀ u ∈ ys, u ∈ merged ∨ keep u = false) →
      mergeLoop keep maxU merged ys = merged := by
  induction ys with
  | nil => intro merged _; rfl
  | cons u ys ih =>
    intro merged h
    by_cases hm : u ∈ merged
    · show (if u ∈ merged then mergeLoop keep maxU merged ys else _) = _
      rw [if_pos hm]
      exact ih merged (fun v hv => h v (by simp [hv]))
    · rcases h u (by simp) with hmem | hk
      · exact absurd hmem hm
      · show (if u ∈ merged then _ else if ¬ keep u = true then
          mergeLoop keep maxU merged ys else _) = _
        rw [if_neg hm, if_pos (by rw [hk]; simp)]
        exact ih merged (fun v hv => h v (by simp [hv]))

/-- The one-step unfolding of `mergeLoop` on a cons cell. -/
theorem mergeLoop_cons (keep : String → Bool) (maxU : Int)
    (merged : List String) (u : String) (rest : List String) :
    mergeLoop keep maxU merged (u :: rest) =
      if u ∈ merged then mergeLoop keep maxU merged rest
      else if ¬ keep u = true then mergeLoop keep maxU merged rest
      else if maxU ≤ (((merged ++ [u]).length : Nat) : Int)
        then merged ++ [u]
      else mergeLoop keep maxU (merged ++ [u]) rest := by
  rw [mergeLoop]

/-- Appending candidates that are all either earlier candidates, already
merged, or rejected does not change the merge result. -/
theorem mergeLoop_append_dup (keep : String → Bool) (maxU : Int) :
    ∀ (xs : List String) merged (ys : List String),
      (∀ u ∈ ys, u ∈ xs ∨ u ∈ merged ∨ keep u = false) →
      mergeLoop keep maxU merged (xs ++ ys)
        = mergeLoop keep maxU merged xs := by
  intro xs
  induction xs with
  | nil =>
    intro merged ys h
    show mergeLoop keep maxU merged ys = merged
    exact mergeLoop_skip keep maxU ys merged
      (fun u hu => (h u hu).resolve_left (by simp))
  | cons x xs ih =>
    intro merged ys h
    rw [List.cons_append, mergeLoop_cons, mergeLoop_cons]
    by_cases hm : x ∈ merged
    · rw [if_pos hm, if_pos hm]
      exact ih merged ys (fun u hu => by
        rcases h u (by simp [hu]) with h1 | h2
        · rcases List.mem_cons.mp h1 with rfl | h3
          · exact Or.inr (Or.inl hm)
          · exact Or.inl h3
        · exact Or.inr h2)
    · rw [if_neg hm, if_neg hm]
      by_cases hk : keep x = true
      · have hcond : ¬ (¬ keep x = true) := by simp [hk]
        rw [if_neg hcond, if_neg hcond]
        by_cases hcap : maxU ≤ (((merged ++ [x]).length : Nat) : Int)
        · rw [if_pos hcap, if_pos hcap]
        · rw [if_neg hcap, if_neg hcap]
          exact ih (merged ++ [x]) ys (fun u hu => by
            rcases h u (by simp [hu]) with h1 | h2
            · rcases List.mem_cons.mp h1 with rfl | h3
              · exact Or.inr (Or.inl (by simp))
              · exact Or.inl h3
            · rcases h2 with h4 | h5
              · exact Or.inr (Or.inl (by simp [h4]))
              · exact Or.inr (Or.inr h5))
      · rw [if_pos (by simp [hk]), if_pos (by simp [hk])]
        exact ih merged ys (fun u hu => by
          rcases h u (by simp [hu]) with h1 | h2
          · rcases List.mem_cons.mp h1 with rfl | h3
            · exact Or.inr (Or.inr (by revert hk; cases keep u <;> simp))
            · exact Or.inl h3
          · exact Or.inr h2)

/-- C10: source attribution is a commutative and idempotent set union —
folding the harvester pairs in any order yields the same
`url → sources` mapping, folding a pair already folded changes nothing,
and duplicating a source's URL list among the merge candidates leaves the
deduplicated merged sequence unchanged. -/
theorem claim_C10 :
    (∀ (ps qs : List (String × List String)), ps.Perm qs →
      ∀ m x, aggregate ps m x = aggregate qs m x) ∧
    (∀ (ps : List (String × List String)) (q : String × List String),
      q ∈ ps → ∀ m x, aggregate (ps ++ [q]) m x = aggregate ps m x) ∧
    (∀ (keep : String → Bool) (maxU : Int) (pre urls : List String),
      mergeLoop keep maxU [] ((pre ++ urls) ++ urls)
        = mergeLoop keep maxU [] (pre ++ urls)) := by
  refine ⟨?_, ?_, ?_⟩
  · intro ps qs hperm m x
    apply Finset.ext
    intro y
    rw [mem_aggregate, mem_aggregate]
    constructor
    · rintro (hy | ⟨q, hq, hP⟩)
      · exact Or.inl hy
      · exact Or.inr ⟨q, hperm.mem_iff.mp hq, hP⟩
    · rintro (hy | ⟨q, hq, hP⟩)
      · exact Or.inl hy
      · exact Or.inr ⟨q, hperm.mem_iff.mpr hq, hP⟩
  · intro ps q hq m x
    apply Finset.ext
    intro y
    rw [mem_aggregate, mem_aggregate]
    constructor
    · rintro (hy | ⟨p, hp, hP⟩)
      · exact Or.inl hy
      · rcases List.mem_append.mp hp with hp2 | hp2
        · exact Or.inr ⟨p, hp2, hP⟩
        · rcases List.mem_singleton.mp hp2 with rfl
          exact Or.inr ⟨p, hq, hP⟩
    · rintro (hy | ⟨p, hp, hP⟩)
      · exact Or.inl hy
      · exact Or.inr ⟨p, List.mem_append.mpr (Or.inl hp), hP⟩
  · intro keep maxU pre urls
    exact mergeLoop_append_dup keep maxU (pre ++ urls) [] urls
      (fun u hu => Or.inl (List.mem_append.mpr (Or.inr hu)))

/-- Witness for C10 at concrete inputs: two harvester pairs folded in both
orders, a duplicated pair, and a duplicated candidate list. -/
theorem claim_C10_witness :
    (aggregate [("robots", ["u"]), ("gau", ["u", "v"])] (seedMap "t") "u"
      = aggregate [("gau", ["u", "v"]), ("robots", ["u"])]
          (seedMap "t") "u") ∧
    (aggregate ([("robots", ["u"])] ++ [("robots", ["u"])])
        (seedMap "t") "u"
      = aggregate [("robots", ["u"])] (seedMap "t") "u") ∧
    (mergeLoop (fun _ => true) 10 [] ((["a"] ++ ["b", "a"]) ++ ["b", "a"])
      = mergeLoop (fun _ => true) 10 [] (["a"] ++ ["b", "a"])) :=
  ⟨claim_C10.1 _ _ (by decide) (seedMap "t") "u",
    claim_C10.2.1 [("robots", ["u"])] ("robots", ["u"]) (by decide)
      (seedMap "t") "u",
    claim_C10.2.2 (fun _ => true) 10 ["a"] ["b", "a"]⟩

/-! ## Round trip of the JSON model (towards claims C7 and C9) -/

/-- `skipWs` keeps a non-whitespace head. -/
theorem skipWs_cons_neg (c : Char) (cs : List Char) (h : isJsonWs c = false) :
    skipWs (c :: cs) = c :: cs := by
  unfold skipWs
  rw [List.dropWhile_cons_of_neg]
  simp [h]

/-- `skipWs` drops a whitespace head. -/
theorem skipWs_cons_pos (c : Char) (cs : List Char) (h : isJsonWs c = true) :
    skipWs (c :: cs) = skipWs cs := by
  unfold skipWs
  rw [List.dropWhile_cons_of_pos h]

/-- `skipWs` eats printed indentation. -/
theorem skipWs_nSpaces (n : Nat) (cs : List Char) :
    skipWs (nSpaces n ++ cs) = skipWs cs := by
  induction n with
  | zero => rfl
  | succ k ih =>
    show skipWs ((' ' :: nSpaces k) ++ cs) = skipWs cs
    rw [List.cons_append, skipWs_cons_pos _ _ (by decide)]
    exact ih

/-- A character equals the `Char.ofNat` of its own code. -/
theorem char_eq_ofNat {c : Char} {n : Nat} (h : c.toNat = n) :
    Char.ofNat n = c := by
  have h2 := Char.ofNat_toNat c
  rw [h] at h2
  exact h2

/-- The lowercase hex digit of a value below 16 is a hex digit with that
value. -/
theorem hexDigitChar_spec (d : Nat) (h : d < 16) :
    isHexDigit (hexDigitChar d) = true ∧ hexVal (hexDigitChar d) = d := by
  interval_cases d <;> exact ⟨by decide, by decide⟩

/-- `takeWhile` over a satisfying prefix followed by a failing head. -/
theorem takeWhile_all_append (p : Char → Bool) (xs rest : List Char)
    (hall : ∀ x ∈ xs, p x = true)
    (hrest : match rest with | [] => True | c :: _ => p c = false) :
    (xs ++ rest).takeWhile p = xs := by
  induction xs with
  | nil =>
    cases rest with
    | nil => rfl
    | cons c r =>
      show (c :: r).takeWhile p = []
      rw [List.takeWhile_cons_of_neg]
      simp only at hrest
      simp [hrest]
  | cons x xs ih =>
    rw [List.cons_append, List.takeWhile_cons_of_pos (hall x (by simp))]
    rw [ih (fun y hy => hall y (by simp [hy]))]

/-- Unfold one fuel step of the string-body parser. -/
theorem parseStrBody_succ (fuel : Nat) (cs : List Char) :
    parseStrBody (fuel + 1) cs = parseStrF (parseStrBody fuel) cs := by
  simp only [parseStrBody]

/-- One step of the string-body parser on a cons cell. -/
theorem parseStrF_cons (rec : List Char → Option (List Char × List Char))
    (c : Char) (rest : List Char) :
    parseStrF rec (c :: rest) =
      if c = '"' then some ([], rest)
      else if c = '\\' then
        match parseEscape rest with
        | some (ch, r) =>
          (rec r).map (fun (sr : List Char × List Char) => (ch :: sr.1, sr.2))
        | none => none
      else if c.toNat < 32 then none
      else (rec rest).map
        (fun (sr : List Char × List Char) => (c :: sr.1, sr.2)) := rfl

/-- A backslash followed by a recognised escape sequence decodes to the
escaped character, then hands the rest to the continuation. -/
theorem parseStrF_backslash (rec : List Char → Option (List Char × List Char))
    (tail : List Char) (ch : Char) (r : List Char)
    (he : parseEscape tail = some (ch, r)) :
    parseStrF rec ('\\' :: tail)
      = (rec r).map (fun (sr : List Char × List Char) => (ch :: sr.1, sr.2)) := by
  rw [parseStrF_cons, if_neg (by decide), if_pos rfl, he]

/-- Escaping any character produces at least one character. -/
theorem escapeChar_length (c : Char) : 1 ≤ (escapeChar c).length := by
  unfold escapeChar
  split_ifs <;> simp

/-- The escaped body is at least as long as the raw body. -/
theorem encodeStrBody_length (l : List Char) :
    l.length ≤ (encodeStrBody l).length := by
  induction l with
  | nil => simp [encodeStrBody]
  | cons c l ih =>
    show l.length + 1 ≤ (escapeChar c ++ encodeStrBody l).length
    rw [List.length_append]
    have := escapeChar_length c
    omega

/-- The string escaper and the string parser are inverse on the body of a
string literal, given fuel beyond the number of decoded characters. -/
theorem parseStrBody_encode (l : List Char) :
    ∀ (fuel : Nat) (rest : List Char), l.length < fuel →
      parseStrBody fuel (encodeStrBody l ++ ('"' :: rest))
        = some (l, rest) := by
  induction l with
  | nil =>
    intro fuel rest h
    obtain ⟨f, rfl⟩ : ∃ f, fuel = f + 1 := ⟨fuel - 1, by omega⟩
    rw [parseStrBody_succ]
    rfl
  | cons c l ih =>
    intro fuel rest h
    obtain ⟨f, rfl⟩ : ∃ f, fuel = f + 1 := ⟨fuel - 1, by omega⟩
    rw [parseStrBody_succ]
    have ihf := ih f rest (by simp at h; omega)
    show parseStrF (parseStrBody f)
      ((escapeChar c ++ encodeStrBody l) ++ ('"' :: rest)) = _
    rw [List.append_assoc]
    unfold escapeChar
    by_cases h1 : c = '"'
    · rw [if_pos h1]
      subst h1
      show parseStrF (parseStrBody f)
        ('\\' :: ('"' :: (encodeStrBody l ++ '"' :: rest))) = _
      rw [parseStrF_backslash _ _ _ _
        (show parseEscape ('"' :: (encodeStrBody l ++ '"' :: rest))
          = some ('"', encodeStrBody l ++ '"' :: rest) from rfl), ihf]
      rfl
    rw [if_neg h1]
    by_cases h2 : c = '\\'
    · rw [if_pos h2]
      subst h2
      show parseStrF (parseStrBody f)
        ('\\' :: ('\\' :: (encodeStrBody l ++ '"' :: rest))) = _
      rw [parseStrF_backslash _ _ _ _
        (show parseEscape ('\\' :: (encodeStrBody l ++ '"' :: rest))
          = some ('\\', encodeStrBody l ++ '"' :: rest) from rfl), ihf]
      rfl
    rw [if_neg h2]
    by_cases h3 : c.toNat = 8
    · rw [if_pos h3]
      show parseStrF (parseStrBody f)
        ('\\' :: ('b' :: (encodeStrBody l ++ '"' :: rest))) = _
      rw [parseStrF_backslash _ _ _ _
        (show parseEscape ('b' :: (encodeStrBody l ++ '"' :: rest))
          = some (Char.ofNat 8, encodeStrBody l ++ '"' :: rest) from rfl),
        ihf, char_eq_ofNat h3]
      rfl
    rw [if_neg h3]
    by_cases h4 : c.toNat = 12
    · rw [if_pos h4]
      show parseStrF (parseStrBody f)
        ('\\' :: ('f' :: (encodeStrBody l ++ '"' :: rest))) = _
      rw [parseStrF_backslash _ _ _ _
        (show parseEscape ('f' :: (encodeStrBody l ++ '"' :: rest))
          = some (Char.ofNat 12, encodeStrBody l ++ '"' :: rest) from rfl),
        ihf, char_eq_ofNat h4]
      rfl
    rw [if_neg h4]
    by_cases h5 : c = '\n'
    · rw [if_pos h5]
      subst h5
      show parseStrF (parseStrBody f)
        ('\\' :: ('n' :: (encodeStrBody l ++ '"' :: rest))) = _
      rw [parseStrF_backslash _ _ _ _
        (show parseEscape ('n' :: (encodeStrBody l ++ '"' :: rest))
          = some ('\n', encodeStrBody l ++ '"' :: rest) from rfl), ihf]
      rfl
    rw [if_neg h5]
    by_cases h6 : c = '\r'
    · rw [if_pos h6]
      subst h6
      show parseStrF (parseStrBody f)
        ('\\' :: ('r' :: (encodeStrBody l ++ '"' :: rest))) = _
      rw [parseStrF_backslash _ _ _ _
        (show parseEscape ('r' :: (encodeStrBody l ++ '"' :: rest))
          = some ('\r', encodeStrBody l ++ '"' :: rest) from rfl), ihf]
      rfl
    rw [if_neg h6]
    by_cases h7 : c = '\t'
    · rw [if_pos h7]
      subst h7
      show parseStrF (parseStrBody f)
        ('\\' :: ('t' :: (encodeStrBody l ++ '"' :: rest))) = _
      rw [parseStrF_backslash _ _ _ _
        (show parseEscape ('t' :: (encodeStrBody l ++ '"' :: rest))
          = some ('\t', encodeStrBody l ++ '"' :: rest) from rfl), ihf]
      rfl
    rw [if_neg h7]
    by_cases h8 : c.toNat < 32
    · rw [if_pos h8]
      show parseStrF (parseStrBody f)
        ('\\' :: ('u' :: '0' :: '0' :: hexDigitChar (c.toNat / 16) ::
          hexDigitChar (c.toNat % 16) :: (encodeStrBody l ++ '"' :: rest))) = _
      have hesc : parseEscape ('u' :: '0' :: '0' ::
          hexDigitChar (c.toNat / 16) :: hexDigitChar (c.toNat % 16) ::
          (encodeStrBody l ++ '"' :: rest))
          = some (c, encodeStrBody l ++ '"' :: rest) := by
        conv_rhs => rw [(Char.ofNat_toNat c).symm]
        generalize c.toNat = t at h8 ⊢
        interval_cases t <;> rfl
      rw [parseStrF_backslash _ _ _ _ hesc, ihf]
      rfl
    · rw [if_neg h8]
      show parseStrF (parseStrBody f)
        (c :: (encodeStrBody l ++ '"' :: rest)) = _
      rw [parseStrF_cons, if_neg h1, if_neg h2, if_neg h8, ihf]
      rfl


/-- Whitespace skipping eats any all-whitespace prefix. -/
theorem skipWs_all_append (ws cs : List Char)
    (h : ∀ c ∈ ws, isJsonWs c = true) :
    skipWs (ws ++ cs) = skipWs cs := by
  induction ws with
  | nil => rfl
  | cons c w ih =>
    rw [List.cons_append, skipWs_cons_pos c _ (h c (by simp))]
    exact ih (fun d hd => h d (by simp [hd]))

/-- Every character the digit printer emits is a decimal digit
character. -/
theorem natDigitsAux_mem :
    ∀ (fuel n : Nat), ∀ c ∈ natDigitsAux fuel n,
      ∃ d, d < 10 ∧ c = Char.ofNat (48 + d) := by
  intro fuel
  induction fuel with
  | zero => intro n c hc; simp [natDigitsAux] at hc
  | succ f ih =>
    intro n c hc
    match n with
    | 0 => simp [natDigitsAux] at hc
    | m + 1 =>
      rw [natDigitsAux] at hc
      rcases List.mem_cons.mp hc with h | h
      · exact ⟨(m + 1) % 10, Nat.mod_lt _ (by omega), h⟩
      · exact ih _ c h

/-- Facts about the ten decimal digit characters: each is a digit, is
not JSON whitespace, and is none of the characters the value parser
dispatches on. -/
theorem digitChar_facts (d : Nat) (h : d < 10) :
    (Char.ofNat (48 + d)).isDigit = true ∧
    isJsonWs (Char.ofNat (48 + d)) = false ∧
    Char.ofNat (48 + d) ≠ '"' ∧ Char.ofNat (48 + d) ≠ lcurly ∧
    Char.ofNat (48 + d) ≠ '[' ∧ Char.ofNat (48 + d) ≠ 't' ∧
    Char.ofNat (48 + d) ≠ 'f' ∧ Char.ofNat (48 + d) ≠ 'n' ∧
    Char.ofNat (48 + d) ≠ '-' ∧ Char.ofNat (48 + d) ≠ ']' ∧
    Char.ofNat (48 + d) ≠ rcurly := by
  interval_cases d <;> refine ⟨by decide, by decide, by decide, by decide,
    by decide, by decide, by decide, by decide, by decide, by decide,
    by decide⟩

/-- Every character of a printed natural number is a decimal digit
character. -/
theorem natChars_all (n : Nat) :
    ∀ c ∈ natChars n, ∃ d, d < 10 ∧ c = Char.ofNat (48 + d) := by
  intro c hc
  unfold natChars at hc
  by_cases h0 : n = 0
  · rw [if_pos h0] at hc
    simp at hc
    exact ⟨0, by omega, by rw [hc]⟩
  · rw [if_neg h0] at hc
    exact natDigitsAux_mem n n c (List.mem_reverse.mp hc)

/-- A printed natural number is never empty. -/
theorem natChars_ne_nil (n : Nat) : natChars n ≠ [] := by
  unfold natChars
  by_cases h0 : n = 0
  · rw [if_pos h0]; simp
  · rw [if_neg h0]
    obtain ⟨m, rfl⟩ : ∃ m, n = m + 1 := ⟨n - 1, by omega⟩
    rw [natDigitsAux]
    simp

/-- The digit printer and the digit evaluator are inverse, for any fuel
of at least the printed number. -/
theorem ofDigitsLSB_natDigitsAux :
    ∀ (fuel n : Nat), n ≤ fuel → ofDigitsLSB (natDigitsAux fuel n) = n := by
  intro fuel
  induction fuel with
  | zero => intro n h; interval_cases n; rfl
  | succ f ih =>
    intro n h
    match n with
    | 0 => rfl
    | m + 1 =>
      rw [natDigitsAux]
      show ((Char.ofNat (48 + (m + 1) % 10)).toNat - 48) +
        10 * ofDigitsLSB (natDigitsAux f ((m + 1) / 10)) = m + 1
      rw [toNat_ofNat_valid _ (by omega),
        ih ((m + 1) / 10) (by omega)]
      omega

/-- Parsing the decimal representation of a natural number recovers the
number. -/
theorem digitsVal_natChars (n : Nat) : digitsVal (natChars n) = n := by
  unfold digitsVal natChars
  by_cases h0 : n = 0
  · rw [if_pos h0, h0]; rfl
  · rw [if_neg h0, List.reverse_reverse]
    exact ofDigitsLSB_natDigitsAux n n (Nat.le_refl n)

/-- One step of the value parser once the first non-whitespace
character of the input is exposed. -/
theorem parseValF_cons (rec : PMode → List Char → Option (PRes × List Char))
    (cs0 : List Char) (c : Char) (rest : List Char)
    (h : skipWs cs0 = c :: rest) :
    parseValF rec cs0 =
      (if c = '"' then
        (parseStrBody (rest.length + 1) rest).map
          (fun (sr : List Char × List Char) => (.rv (.jstr ⟨sr.1⟩), sr.2))
      else if c = lcurly then
        match skipWs rest with
        | d :: r =>
          if d = rcurly then some (.rv (.jobj []), r)
          else
            match rec .members (d :: r) with
            | some (.rm ms, r2) => some (.rv (.jobj ms), r2)
            | _ => none
        | [] => none
      else if c = '[' then
        match skipWs rest with
        | d :: r =>
          if d = ']' then some (.rv (.jarr []), r)
          else
            match rec .elems (d :: r) with
            | some (.rl vs, r2) => some (.rv (.jarr vs), r2)
            | _ => none
        | [] => none
      else if c = 't' then
        if rest.take 3 = ['r', 'u', 'e'] then
          some (.rv (.jbool true), rest.drop 3)
        else none
      else if c = 'f' then
        if rest.take 4 = ['a', 'l', 's', 'e'] then
          some (.rv (.jbool false), rest.drop 4)
        else none
      else if c = 'n' then
        if rest.take 3 = ['u', 'l', 'l'] then
          some (.rv .jnull, rest.drop 3)
        else none
      else if c = '-' then
        if rest.takeWhile Char.isDigit = [] then none
        else some (.rv (.jint (-(digitsVal (rest.takeWhile Char.isDigit) : Int))),
          rest.drop (rest.takeWhile Char.isDigit).length)
      else if c.isDigit then
        some (.rv (.jint (digitsVal ((c :: rest).takeWhile Char.isDigit) : Int)),
          (c :: rest).drop ((c :: rest).takeWhile Char.isDigit).length)
      else none) := by
  unfold parseValF
  rw [h]

/-- The value parser reads a printed `null`. -/
theorem parseValF_null (rec : PMode → List Char → Option (PRes × List Char))
    (ws : List Char) (hws : ∀ c ∈ ws, isJsonWs c = true) (lvl : Nat)
    (rest : List Char) :
    parseValF rec (ws ++ (printVal lvl .jnull ++ rest))
      = some (.rv .jnull, rest) := by
  have hskip : skipWs (ws ++ (printVal lvl .jnull ++ rest))
      = 'n' :: ('u' :: 'l' :: 'l' :: rest) := by
    rw [skipWs_all_append _ _ hws]
    rfl
  rw [parseValF_cons rec _ _ _ hskip]
  rfl

/-- The value parser reads a printed `true`. -/
theorem parseValF_true (rec : PMode → List Char → Option (PRes × List Char))
    (ws : List Char) (hws : ∀ c ∈ ws, isJsonWs c = true) (lvl : Nat)
    (rest : List Char) :
    parseValF rec (ws ++ (printVal lvl (.jbool true) ++ rest))
      = some (.rv (.jbool true), rest) := by
  have hskip : skipWs (ws ++ (printVal lvl (.jbool true) ++ rest))
      = 't' :: ('r' :: 'u' :: 'e' :: rest) := by
    rw [skipWs_all_append _ _ hws]
    rfl
  rw [parseValF_cons rec _ _ _ hskip]
  rfl

/-- The value parser reads a printed `false`. -/
theorem parseValF_false (rec : PMode → List Char → Option (PRes × List Char))
    (ws : List Char) (hws : ∀ c ∈ ws, isJsonWs c = true) (lvl : Nat)
    (rest : List Char) :
    parseValF rec (ws ++ (printVal lvl (.jbool false) ++ rest))
      = some (.rv (.jbool false), rest) := by
  have hskip : skipWs (ws ++ (printVal lvl (.jbool false) ++ rest))
      = 'f' :: ('a' :: 'l' :: 's' :: 'e' :: rest) := by
    rw [skipWs_all_append _ _ hws]
    rfl
  rw [parseValF_cons rec _ _ _ hskip]
  rfl

/-- The value parser reads a printed empty array. -/
theorem parseValF_arrNil (rec : PMode → List Char → Option (PRes × List Char))
    (ws : List Char) (hws : ∀ c ∈ ws, isJsonWs c = true) (lvl : Nat)
    (rest : List Char) :
    parseValF rec (ws ++ (printVal lvl (.jarr []) ++ rest))
      = some (.rv (.jarr []), rest) := by
  have hskip : skipWs (ws ++ (printVal lvl (.jarr []) ++ rest))
      = '[' :: (']' :: rest) := by
    rw [skipWs_all_append _ _ hws]
    rfl
  rw [parseValF_cons rec _ _ _ hskip]
  rfl

/-- The value parser reads a printed empty object. -/
theorem parseValF_objNil (rec : PMode → List Char → Option (PRes × List Char))
    (ws : List Char) (hws : ∀ c ∈ ws, isJsonWs c = true) (lvl : Nat)
    (rest : List Char) :
    parseValF rec (ws ++ (printVal lvl (.jobj []) ++ rest))
      = some (.rv (.jobj []), rest) := by
  have hskip : skipWs (ws ++ (printVal lvl (.jobj []) ++ rest))
      = lcurly :: (rcurly :: rest) := by
    rw [skipWs_all_append _ _ hws]
    rfl
  rw [parseValF_cons rec _ _ _ hskip]
  rfl

/-- The value parser reads a printed string literal back to the same
string. -/
theorem parseValF_str (rec : PMode → List Char → Option (PRes × List Char))
    (ws : List Char) (hws : ∀ c ∈ ws, isJsonWs c = true) (lvl : Nat)
    (s : String) (rest : List Char) :
    parseValF rec (ws ++ (printVal lvl (.jstr s) ++ rest))
      = some (.rv (.jstr s), rest) := by
  have htail : printVal lvl (.jstr s) ++ rest
      = '"' :: (encodeStrBody s.data ++ ('"' :: rest)) := by
    show encodeStr s ++ rest = _
    simp [encodeStr]
  have hskip : skipWs (ws ++ (printVal lvl (.jstr s) ++ rest))
      = '"' :: (encodeStrBody s.data ++ ('"' :: rest)) := by
    rw [skipWs_all_append _ _ hws, htail,
      skipWs_cons_neg _ _ (by decide)]
  rw [parseValF_cons rec _ _ _ hskip, if_pos rfl,
    parseStrBody_encode s.data _ rest
      (by rw [List.length_append, List.length_cons]; have := encodeStrBody_length s.data; omega)]
  rfl

/-- Characters of a printed natural number satisfy `Char.isDigit`. -/
theorem natChars_digits (n : Nat) :
    ∀ c ∈ natChars n, Char.isDigit c = true := by
  intro c hc
  obtain ⟨d, hd, rfl⟩ := natChars_all n c hc
  exact (digitChar_facts d hd).1

/-- The number scanner stops exactly at the end of a printed natural
number when the following character is not a digit. -/
theorem takeWhile_natChars (n : Nat) (rest : List Char)
    (hr : headNotDigit rest) :
    (natChars n ++ rest).takeWhile Char.isDigit = natChars n := by
  refine takeWhile_all_append _ _ _ (natChars_digits n) ?_
  cases rest with
  | nil => trivial
  | cons c r => exact hr

/-- The value parser reads a printed integer (either sign) back to the
same integer. -/
theorem parseValF_int (rec : PMode → List Char → Option (PRes × List Char))
    (ws : List Char) (hws : ∀ c ∈ ws, isJsonWs c = true) (lvl : Nat)
    (i : Int) (rest : List Char) (hr : headNotDigit rest) :
    parseValF rec (ws ++ (printVal lvl (.jint i) ++ rest))
      = some (.rv (.jint i), rest) := by
  by_cases hi : i < 0
  · have hpr : printVal lvl (.jint i) = '-' :: natChars i.natAbs := by
      show intChars i = _
      unfold intChars
      rw [if_pos hi]
    have hskip : skipWs (ws ++ (printVal lvl (.jint i) ++ rest))
        = '-' :: (natChars i.natAbs ++ rest) := by
      rw [skipWs_all_append _ _ hws, hpr, List.cons_append,
        skipWs_cons_neg _ _ (by decide)]
    rw [parseValF_cons rec _ _ _ hskip,
      if_neg (by decide), if_neg (by decide), if_neg (by decide),
      if_neg (by decide), if_neg (by decide), if_neg (by decide),
      if_pos rfl, takeWhile_natChars _ _ hr,
      if_neg (natChars_ne_nil i.natAbs), digitsVal_natChars,
      List.drop_left]
    have hval : -(i.natAbs : Int) = i := by omega
    rw [hval]
  · have hpr : printVal lvl (.jint i) = natChars i.natAbs := by
      show intChars i = _
      unfold intChars
      rw [if_neg hi]
    obtain ⟨c0, t0, hct⟩ : ∃ c0 t0, natChars i.natAbs = c0 :: t0 := by
      cases h : natChars i.natAbs with
      | nil => exact absurd h (natChars_ne_nil i.natAbs)
      | cons a b => exact ⟨a, b, rfl⟩
    obtain ⟨d, hd, hc0⟩ := natChars_all i.natAbs c0
      (by rw [hct]; exact List.mem_cons_self c0 t0)
    have hback : c0 :: (t0 ++ rest) = natChars i.natAbs ++ rest := by
      rw [hct, List.cons_append]
    have hskip : skipWs (ws ++ (printVal lvl (.jint i) ++ rest))
        = c0 :: (t0 ++ rest) := by
      rw [skipWs_all_append _ _ hws, hpr, hct, List.cons_append,
        skipWs_cons_neg _ _ (by rw [hc0]; exact (digitChar_facts d hd).2.1)]
    have hfacts := digitChar_facts d hd
    rw [parseValF_cons rec _ _ _ hskip,
      if_neg (by rw [hc0]; exact hfacts.2.2.1),
      if_neg (by rw [hc0]; exact hfacts.2.2.2.1),
      if_neg (by rw [hc0]; exact hfacts.2.2.2.2.1),
      if_neg (by rw [hc0]; exact hfacts.2.2.2.2.2.1),
      if_neg (by rw [hc0]; exact hfacts.2.2.2.2.2.2.1),
      if_neg (by rw [hc0]; exact hfacts.2.2.2.2.2.2.2.1),
      if_neg (by rw [hc0]; exact hfacts.2.2.2.2.2.2.2.2.1),
      if_pos (by rw [hc0]; exact hfacts.1),
      hback, takeWhile_natChars _ _ hr, digitsVal_natChars,
      List.drop_left]
    have hval : (i.natAbs : Int) = i := by omega
    rw [hval]

/-- Unfold one fuel step of the grammar parser in value mode. -/
theorem parseJ_succ_val (fuel : Nat) (cs : List Char) :
    parseJ (fuel + 1) .val cs = parseValF (parseJ fuel) cs := by
  simp only [parseJ]

/-- Unfold one fuel step of the grammar parser in array-element mode. -/
theorem parseJ_succ_elems (fuel : Nat) (cs : List Char) :
    parseJ (fuel + 1) .elems cs = parseElemsF (parseJ fuel) cs := by
  simp only [parseJ]

/-- Unfold one fuel step of the grammar parser in object-member mode. -/
theorem parseJ_succ_members (fuel : Nat) (cs : List Char) :
    parseJ (fuel + 1) .members cs = parseMembersF (parseJ fuel) cs := by
  simp only [parseJ]

/-- Every JSON value has positive size. -/
theorem jsize_pos (v : JValue) : 1 ≤ jsize v := by
  cases v <;> simp [jsize]

/-- Every element-list measure is positive. -/
theorem jsizeList_pos (vs : List JValue) : 1 ≤ jsizeList vs := by
  cases vs
  · simp [jsizeList]
  · simp only [jsizeList]; omega

/-- Every member-list measure is positive. -/
theorem jsizeMems_pos (ms : List (String × JValue)) : 1 ≤ jsizeMems ms := by
  cases ms
  · simp [jsizeMems]
  · simp only [jsizeMems]; omega

/-- A newline followed by indentation is all JSON whitespace. -/
theorem ws_nl_spaces (k : Nat) :
    ∀ c ∈ '\n' :: nSpaces k, isJsonWs c = true := by
  intro c hc
  rcases List.mem_cons.mp hc with h | h
  · rw [h]; decide
  · rw [List.eq_of_mem_replicate h]; decide

/-- A single space is all JSON whitespace. -/
theorem ws_single_space : ∀ c ∈ [' '], isJsonWs c = true := by
  intro c hc
  rw [List.mem_singleton.mp hc]; decide

/-- The printed tail of an array never starts with a digit. -/
theorem printArrTail_hnd (lvl : Nat) (vs : List JValue) (rest : List Char) :
    headNotDigit (printArrTail lvl vs ++ rest) := by
  cases vs with
  | nil => show ('\n').isDigit = false; decide
  | cons a b => show (',').isDigit = false; decide

/-- The printed tail of an object never starts with a digit. -/
theorem printObjTail_hnd (lvl : Nat) (ms : List (String × JValue))
    (rest : List Char) :
    headNotDigit (printObjTail lvl ms ++ rest) := by
  cases ms with
  | nil => show ('\n').isDigit = false; decide
  | cons a b => show (',').isDigit = false; decide

/-- A printed value starts with a non-whitespace character that closes
neither an array nor an object. -/
theorem printVal_head (lvl : Nat) (v : JValue) :
    ∃ c t, printVal lvl v = c :: t ∧ isJsonWs c = false ∧
      c ≠ ']' ∧ c ≠ rcurly := by
  match v with
  | .jnull => exact ⟨'n', _, rfl, by decide, by decide, by decide⟩
  | .jbool true => exact ⟨'t', _, rfl, by decide, by decide, by decide⟩
  | .jbool false => exact ⟨'f', _, rfl, by decide, by decide, by decide⟩
  | .jstr s =>
    exact ⟨'"', encodeStrBody s.data ++ ['"'], rfl, by decide, by decide,
      by decide⟩
  | .jarr [] => exact ⟨'[', _, rfl, by decide, by decide, by decide⟩
  | .jarr (a :: vs) => exact ⟨'[', _, rfl, by decide, by decide, by decide⟩
  | .jobj [] => exact ⟨lcurly, _, rfl, by decide, by decide, by decide⟩
  | .jobj (m :: ms) => exact ⟨lcurly, _, rfl, by decide, by decide, by decide⟩
  | .jint i =>
    by_cases hi : i < 0
    · refine ⟨'-', natChars i.natAbs, ?_, by decide, by decide, by decide⟩
      show intChars i = _
      unfold intChars
      rw [if_pos hi]
    · obtain ⟨c0, t0, hct⟩ : ∃ c0 t0, natChars i.natAbs = c0 :: t0 := by
        cases h : natChars i.natAbs with
        | nil => exact absurd h (natChars_ne_nil i.natAbs)
        | cons a b => exact ⟨a, b, rfl⟩
      obtain ⟨d, hd, hc0⟩ := natChars_all i.natAbs c0
        (by rw [hct]; exact List.mem_cons_self c0 t0)
      refine ⟨c0, t0, ?_, ?_, ?_, ?_⟩
      · show intChars i = _
        unfold intChars
        rw [if_neg hi, hct]
      · rw [hc0]; exact (digitChar_facts d hd).2.1
      · rw [hc0]; exact (digitChar_facts d hd).2.2.2.2.2.2.2.2.2.1
      · rw [hc0]; exact (digitChar_facts d hd).2.2.2.2.2.2.2.2.2.2

/-- The fueled grammar parser inverts the indent-2 printer in all three
modes, with tolerance for leading whitespace, for any fuel above the
node count of the value being read. -/
theorem parseJ_print (fuel : Nat) :
    (∀ (v : JValue) (lvl : Nat) (ws rest : List Char),
      (∀ c ∈ ws, isJsonWs c = true) → jsize v < fuel →
      headNotDigit rest →
      parseJ fuel .val (ws ++ (printVal lvl v ++ rest))
        = some (.rv v, rest)) ∧
    (∀ (v : JValue) (vs : List JValue) (lvl : Nat) (ws rest : List Char),
      (∀ c ∈ ws, isJsonWs c = true) → jsize v + jsizeList vs < fuel →
      headNotDigit rest →
      parseJ fuel .elems
          (ws ++ (printVal (lvl + 1) v ++ (printArrTail lvl vs ++ rest)))
        = some (.rl (v :: vs), rest)) ∧
    (∀ (k : String) (v : JValue) (ms : List (String × JValue)) (lvl : Nat)
        (ws rest : List Char),
      (∀ c ∈ ws, isJsonWs c = true) → jsize v + jsizeMems ms < fuel →
      headNotDigit rest →
      parseJ fuel .members
          (ws ++ (encodeStr k ++ (':' :: ' ' ::
            (printVal (lvl + 1) v ++ (printObjTail lvl ms ++ rest)))))
        = some (.rm ((k, v) :: ms), rest)) := by
  induction fuel with
  | zero =>
    refine ⟨fun v _ _ _ _ hsz _ => absurd hsz (by omega),
      fun v vs _ _ _ _ hsz _ => absurd hsz (by omega),
      fun k v ms _ _ _ _ hsz _ => absurd hsz (by omega)⟩
  | succ f ih =>
    obtain ⟨ihv, ihe, ihm⟩ := ih
    refine ⟨?_, ?_, ?_⟩
    · intro v lvl ws rest hws hsz hr
      rw [parseJ_succ_val]
      match v with
      | .jnull => exact parseValF_null _ ws hws lvl rest
      | .jbool true => exact parseValF_true _ ws hws lvl rest
      | .jbool false => exact parseValF_false _ ws hws lvl rest
      | .jint i => exact parseValF_int _ ws hws lvl i rest hr
      | .jstr s => exact parseValF_str _ ws hws lvl s rest
      | .jarr [] => exact parseValF_arrNil _ ws hws lvl rest
      | .jobj [] => exact parseValF_objNil _ ws hws lvl rest
      | .jarr (v1 :: vs) =>
        have hpv : printVal lvl (.jarr (v1 :: vs))
            = '[' :: '\n' :: (nSpaces (2 * (lvl + 1)) ++
              printVal (lvl + 1) v1 ++ printArrTail lvl vs) := rfl
        have hskip : skipWs (ws ++ (printVal lvl (.jarr (v1 :: vs)) ++ rest))
            = '[' :: ('\n' :: ((nSpaces (2 * (lvl + 1)) ++
              printVal (lvl + 1) v1 ++ printArrTail lvl vs) ++ rest)) := by
          rw [skipWs_all_append _ _ hws, hpv, List.cons_append,
            List.cons_append, skipWs_cons_neg _ _ (by decide)]
        rw [parseValF_cons _ _ _ _ hskip, if_neg (by decide),
          if_neg (by decide), if_pos rfl]
        obtain ⟨c0, t0, hct, hcw, hcrb, _⟩ := printVal_head (lvl + 1) v1
        have hsw2 : skipWs ('\n' :: ((nSpaces (2 * (lvl + 1)) ++
              printVal (lvl + 1) v1 ++ printArrTail lvl vs) ++ rest))
            = c0 :: (t0 ++ (printArrTail lvl vs ++ rest)) := by
          rw [skipWs_cons_pos _ _ (by decide), List.append_assoc,
            List.append_assoc, skipWs_nSpaces, hct, List.cons_append,
            skipWs_cons_neg _ _ hcw]
        simp only [hsw2]
        rw [if_neg hcrb]
        have he := ihe v1 vs lvl [] rest (by simp)
          (by simp only [jsize, jsizeList] at hsz; omega) hr
        rw [List.nil_append, hct, List.cons_append] at he
        simp only [he]
      | .jobj (m :: ms) =>
        have hpv : printVal lvl (.jobj (m :: ms))
            = lcurly :: '\n' :: (nSpaces (2 * (lvl + 1)) ++
              encodeStr m.1 ++ [':', ' '] ++ printVal (lvl + 1) m.2 ++
              printObjTail lvl ms) := rfl
        have hskip : skipWs (ws ++ (printVal lvl (.jobj (m :: ms)) ++ rest))
            = lcurly :: ('\n' :: ((nSpaces (2 * (lvl + 1)) ++
              encodeStr m.1 ++ [':', ' '] ++ printVal (lvl + 1) m.2 ++
              printObjTail lvl ms) ++ rest)) := by
          rw [skipWs_all_append _ _ hws, hpv, List.cons_append,
            List.cons_append, skipWs_cons_neg _ _ (by decide)]
        rw [parseValF_cons _ _ _ _ hskip, if_neg (by decide), if_pos rfl]
        have hsw2 : skipWs ('\n' :: ((nSpaces (2 * (lvl + 1)) ++
              encodeStr m.1 ++ [':', ' '] ++ printVal (lvl + 1) m.2 ++
              printObjTail lvl ms) ++ rest))
            = '"' :: (encodeStrBody m.1.data ++ ('"' :: (':' :: (' ' ::
              (printVal (lvl + 1) m.2 ++ (printObjTail lvl ms ++ rest)))))) := by
          rw [skipWs_cons_pos _ _ (by decide)]
          simp only [encodeStr, List.append_assoc, List.cons_append,
            List.singleton_append, List.nil_append]
          rw [skipWs_nSpaces, skipWs_cons_neg _ _ (by decide)]
        simp only [hsw2]
        rw [if_neg (by decide)]
        have hm := ihm m.1 m.2 ms lvl [] rest (by simp)
          (by simp only [jsize, jsizeMems] at hsz; omega) hr
        rw [List.nil_append] at hm
        simp only [encodeStr, List.cons_append, List.append_assoc,
          List.singleton_append, List.nil_append] at hm
        simp only [hm]
    · intro v vs lvl ws rest hws hsz hr
      rw [parseJ_succ_elems]
      unfold parseElemsF
      cases vs with
      | nil =>
        have hv := ihv v (lvl + 1) ws (printArrTail lvl [] ++ rest) hws
          (by have := jsizeList_pos ([] : List JValue); omega)
          (printArrTail_hnd lvl [] rest)
        simp only [hv]
        have hsw : skipWs (printArrTail lvl [] ++ rest) = ']' :: rest := by
          show skipWs (('\n' :: (nSpaces (2 * lvl) ++ [']'])) ++ rest) = _
          rw [List.cons_append, skipWs_cons_pos _ _ (by decide),
            List.append_assoc, skipWs_nSpaces, List.singleton_append,
            skipWs_cons_neg _ _ (by decide)]
        simp only [hsw]
      | cons v2 vs2 =>
        have hv := ihv v (lvl + 1) ws (printArrTail lvl (v2 :: vs2) ++ rest)
          hws (by have := jsizeList_pos (v2 :: vs2); omega)
          (printArrTail_hnd lvl (v2 :: vs2) rest)
        simp only [hv]
        have hsw : skipWs (printArrTail lvl (v2 :: vs2) ++ rest)
            = ',' :: (('\n' :: (nSpaces (2 * (lvl + 1)) ++
              printVal (lvl + 1) v2 ++ printArrTail lvl vs2)) ++ rest) := by
          show skipWs ((',' :: '\n' :: (nSpaces (2 * (lvl + 1)) ++
            printVal (lvl + 1) v2 ++ printArrTail lvl vs2)) ++ rest) = _
          rw [List.cons_append, skipWs_cons_neg _ _ (by decide)]
        simp only [hsw]
        have he := ihe v2 vs2 lvl ('\n' :: nSpaces (2 * (lvl + 1))) rest
          (ws_nl_spaces _)
          (by simp only [jsizeList] at hsz; have := jsize_pos v; omega) hr
        simp only [List.cons_append, List.append_assoc] at he ⊢
        simp only [he]
    · intro k v ms lvl ws rest hws hsz hr
      rw [parseJ_succ_members]
      unfold parseMembersF
      have hsw : skipWs (ws ++ (encodeStr k ++ (':' :: ' ' ::
            (printVal (lvl + 1) v ++ (printObjTail lvl ms ++ rest)))))
          = '"' :: (encodeStrBody k.data ++ ('"' :: (':' :: ' ' ::
            (printVal (lvl + 1) v ++ (printObjTail lvl ms ++ rest))))) := by
        rw [skipWs_all_append _ _ hws]
        simp only [encodeStr, List.cons_append, List.append_assoc,
          List.singleton_append, List.nil_append]
        rw [skipWs_cons_neg _ _ (by decide)]
      simp only [hsw]
      rw [parseStrBody_encode k.data _ _
        (by rw [List.length_append]
            have := encodeStrBody_length k.data
            omega)]
      have hsw3 : skipWs (':' :: (' ' :: (printVal (lvl + 1) v ++
            (printObjTail lvl ms ++ rest))))
          = ':' :: (' ' :: (printVal (lvl + 1) v ++
            (printObjTail lvl ms ++ rest))) :=
        skipWs_cons_neg _ _ (by decide)
      simp only [hsw3]
      have hv := ihv v (lvl + 1) [' '] (printObjTail lvl ms ++ rest)
        ws_single_space (by have := jsizeMems_pos ms; omega)
        (printObjTail_hnd lvl ms rest)
      rw [List.singleton_append] at hv
      simp only [hv]
      cases ms with
      | nil =>
        have hsw5 : skipWs (printObjTail lvl [] ++ rest)
            = rcurly :: rest := by
          show skipWs (('\n' :: (nSpaces (2 * lvl) ++ [rcurly])) ++ rest) = _
          rw [List.cons_append, skipWs_cons_pos _ _ (by decide),
            List.append_assoc, skipWs_nSpaces, List.singleton_append,
            skipWs_cons_neg _ _ (by decide)]
        simp only [hsw5]
        rfl
      | cons m ms2 =>
        have hsw5 : skipWs (printObjTail lvl (m :: ms2) ++ rest)
            = ',' :: (('\n' :: (nSpaces (2 * (lvl + 1)) ++
              encodeStr m.1 ++ [':', ' '] ++ printVal (lvl + 1) m.2 ++
              printObjTail lvl ms2)) ++ rest) := by
          show skipWs ((',' :: '\n' :: (nSpaces (2 * (lvl + 1)) ++
            encodeStr m.1 ++ [':', ' '] ++ printVal (lvl + 1) m.2 ++
            printObjTail lvl ms2)) ++ rest) = _
          rw [List.cons_append, skipWs_cons_neg _ _ (by decide)]
        simp only [hsw5]
        have hm := ihm m.1 m.2 ms2 lvl ('\n' :: nSpaces (2 * (lvl + 1))) rest
          (ws_nl_spaces _)
          (by simp only [jsizeMems] at hsz; have := jsize_pos v; omega) hr
        simp only [encodeStr, List.cons_append, List.append_assoc,
          List.singleton_append, List.nil_append] at hm ⊢
        simp only [hm]

/-- The node count of a value is at most its printed length, so the
fuel `loads` passes always suffices. -/
theorem sizeBound (n : Nat) :
    (∀ v lvl, jsize v ≤ n → jsize v ≤ (printVal lvl v).length) ∧
    (∀ vs lvl, jsizeList vs ≤ n → jsizeList vs ≤ (printArrTail lvl vs).length) ∧
    (∀ ms lvl, jsizeMems ms ≤ n → jsizeMems ms ≤ (printObjTail lvl ms).length) := by
  induction n with
  | zero =>
    refine ⟨fun v _ h => absurd h (by have := jsize_pos v; omega),
      fun vs _ h => absurd h (by have := jsizeList_pos vs; omega),
      fun ms _ h => absurd h (by have := jsizeMems_pos ms; omega)⟩
  | succ n ih =>
    obtain ⟨ihv, ihl, ihm⟩ := ih
    refine ⟨?_, ?_, ?_⟩
    · intro v lvl hle
      match v with
      | .jnull => simp [jsize, printVal]
      | .jbool true => simp [jsize, printVal]
      | .jbool false => simp [jsize, printVal]
      | .jint i =>
        have h1 : jsize (JValue.jint i) = 1 := rfl
        have h2 : printVal lvl (.jint i) = intChars i := rfl
        rw [h1, h2]
        unfold intChars
        split_ifs
        · simp
        · cases h : natChars i.natAbs with
          | nil => exact absurd h (natChars_ne_nil i.natAbs)
          | cons a b => simp [h]
      | .jstr s =>
        have h1 : jsize (JValue.jstr s) = 1 := rfl
        have h2 : printVal lvl (.jstr s) = encodeStr s := rfl
        rw [h1, h2]
        simp [encodeStr]
      | .jarr [] => simp [jsize, jsizeList, printVal]
      | .jobj [] => simp [jsize, jsizeMems, printVal]
      | .jarr (v1 :: vs) =>
        simp only [jsize, jsizeList] at hle ⊢
        have hv1 := ihv v1 (lvl + 1) (by have := jsizeList_pos vs; omega)
        have hvs := ihl vs lvl (by have := jsize_pos v1; omega)
        have hp : printVal lvl (.jarr (v1 :: vs))
            = '[' :: '\n' :: (nSpaces (2 * (lvl + 1)) ++
              printVal (lvl + 1) v1 ++ printArrTail lvl vs) := rfl
        rw [hp]
        simp only [List.length_cons, List.length_append]
        omega
      | .jobj (m :: ms) =>
        simp only [jsize, jsizeMems] at hle ⊢
        have hv1 := ihv m.2 (lvl + 1) (by have := jsizeMems_pos ms; omega)
        have hms := ihm ms lvl (by have := jsize_pos m.2; omega)
        have hp : printVal lvl (.jobj (m :: ms))
            = lcurly :: '\n' :: (nSpaces (2 * (lvl + 1)) ++
              encodeStr m.1 ++ [':', ' '] ++ printVal (lvl + 1) m.2 ++
              printObjTail lvl ms) := rfl
        rw [hp]
        simp only [List.length_cons, List.length_append]
        omega
    · intro vs lvl hle
      match vs with
      | [] => simp [jsizeList, printArrTail]
      | v1 :: vs2 =>
        simp only [jsizeList] at hle ⊢
        have hv1 := ihv v1 (lvl + 1) (by have := jsizeList_pos vs2; omega)
        have hvs := ihl vs2 lvl (by have := jsize_pos v1; omega)
        have hp : printArrTail lvl (v1 :: vs2)
            = ',' :: '\n' :: (nSpaces (2 * (lvl + 1)) ++
              printVal (lvl + 1) v1 ++ printArrTail lvl vs2) := rfl
        rw [hp]
        simp only [List.length_cons, List.length_append]
        omega
    · intro ms lvl hle
      match ms with
      | [] => simp [jsizeMems, printObjTail]
      | m :: ms2 =>
        simp only [jsizeMems] at hle ⊢
        have hv1 := ihv m.2 (lvl + 1) (by have := jsizeMems_pos ms2; omega)
        have hms := ihm ms2 lvl (by have := jsize_pos m.2; omega)
        have hp : printObjTail lvl (m :: ms2)
            = ',' :: '\n' :: (nSpaces (2 * (lvl + 1)) ++
              encodeStr m.1 ++ [':', ' '] ++ printVal (lvl + 1) m.2 ++
              printObjTail lvl ms2) := rfl
        rw [hp]
        simp only [List.length_cons, List.length_append]
        omega

/-- Round trip of the JSON model: `json.loads` recovers any value from
its `json.dumps(..., indent=2)` text. -/
theorem loads_dumps (v : JValue) : loads (dumps v) = some v := by
  have hd : (dumps v).data = printVal 0 v := rfl
  have h := (parseJ_print ((printVal 0 v).length + 1)).1 v 0 [] []
    (by simp)
    (by have := (sizeBound (jsize v)).1 v 0 (Nat.le_refl _); omega)
    trivial
  rw [List.nil_append, List.append_nil] at h
  unfold loads
  rw [hd]
  simp only [h]
  rfl

/-- Loading a snapshot right after saving it returns exactly the saved
URL list (as the JSON array stored under `urls`). -/
theorem load_after_save (fs : FS) (out source target : String)
    (data : List String) :
    load_raw_data (save_raw_data fs out source target data) out source target
      = some (.jarr (data.map .jstr)) := by
  unfold load_raw_data save_raw_data
  rw [if_pos rfl]
  simp only [loads_dumps, payloadJson]
  rfl

/-- Claim C9: cache save/load round-trips — for every output directory,
source name, target, and URL list, `load_raw_data` after
`save_raw_data` returns exactly the saved URL list, and the saved
payload's `url_count` field equals the length of its `urls` list. -/
theorem claim_C9 (fs : FS) (out source target : String)
    (data : List String) :
    load_raw_data (save_raw_data fs out source target data) out source target
      = some (.jarr (data.map .jstr)) ∧
    payloadJson source target data
      = .jobj [("source", .jstr source), ("target", .jstr target),
               ("url_count", .jint ((data.map JValue.jstr).length : Int)),
               ("urls", .jarr (data.map .jstr))] := by
  refine ⟨load_after_save fs out source target data, ?_⟩
  simp [payloadJson]

/-- Claim C7: the resume decision equals `resumeEnabled AND
exists(name)` — after a save, `should_skip` is `true` with
`resume = True` and `false` with `resume = False`, and with no snapshot
present it is `false` regardless of the resume flag. -/
theorem claim_C7 (fs : FS) (out source target : String)
    (data : List String) :
    should_skip (save_raw_data fs out source target data)
      out source target true = true ∧
    should_skip (save_raw_data fs out source target data)
      out source target false = false ∧
    (fs (get_raw_file_path out source target) = none →
      ∀ resume, should_skip fs out source target resume = false) := by
  refine ⟨?_, ?_, ?_⟩
  · unfold should_skip should_harvest
    rw [load_after_save]
    rfl
  · rfl
  · intro h resume
    unfold should_skip should_harvest load_raw_data
    rw [h]
    cases resume <;> rfl

/-- Claim C8: `load_raw_data` on a missing snapshot file returns absent
(not an error), and on an existing file whose content fails to parse as
JSON it also returns absent — corruption is a cache miss, never a
raise. -/
theorem claim_C8 (fs : FS) (out source target : String) :
    (fs (get_raw_file_path out source target) = none →
      load_raw_data fs out source target = none) ∧
    (∀ content, fs (get_raw_file_path out source target) = some content →
      loads content = none →
      load_raw_data fs out source target = none) := by
  constructor
  · intro h
    unfold load_raw_data
    rw [h]
  · intro content h hbad
    unfold load_raw_data
    rw [h]
    simp only [hbad]

/-- Witness for claim C7 at a concrete store, discharging the
no-snapshot hypothesis. -/
theorem claim_C7_witness :
    should_skip (save_raw_data (fun _ => none) "out" "robots" "t"
      ["http://a/x"]) "out" "robots" "t" true = true ∧
    should_skip ((fun _ => none) : FS) "out" "robots" "t" true = false :=
  ⟨(claim_C7 (fun _ => none) "out" "robots" "t" ["http://a/x"]).1,
   (claim_C7 (fun _ => none) "out" "robots" "t" ["http://a/x"]).2.2 rfl true⟩

/-- Witness for claim C8 at a concrete missing file and a concrete
corrupt file. -/
theorem claim_C8_witness :
    load_raw_data ((fun _ => none) : FS) "out" "robots" "t" = none ∧
    load_raw_data ((fun _ => some "not json\x7b\x7b") : FS)
      "out" "robots" "t" = none :=
  ⟨(claim_C8 (fun _ => none) "out" "robots" "t").1 rfl,
   (claim_C8 (fun _ => some "not json\x7b\x7b") "out" "robots" "t").2
     "not json\x7b\x7b" rfl (by rfl)⟩

end WebReaper